import Mathlib

/-!
Shallow embedding of the resampling pipeline of `modules/submap.js`
(Fantasy-Map-Generator), together with theorems settling the claims about it.

Modelling conventions:
* JS numbers used as coordinates / populations are modelled as `ℚ`
  (the code only adds, multiplies and rounds them).
* Typed arrays (`Uint8Array`, `Uint16Array`) are modelled as functions
  `Nat → Nat` together with an explicit length `n`; reads out of range give
  `0` (JS: `undefined`, which is falsy) and writes out of range are dropped,
  matching JS typed-array semantics.  Stored values are reduced mod `2 ^ w`
  where the code writes into a typed array.
* The d3 quadtree `find` calls, the global `findCell` / `findAll` helpers,
  the projection pair and the pole-of-inaccessibility helper are external
  collaborators (spec §4.1, §6); they enter the definitions as function
  parameters.
* Entity records keep the fields the resampling code reads or writes;
  string fields (`name`, …) are only used for log messages and are omitted.
-/

namespace Submap

/-- Read of a JS typed array of length `n`: out-of-range reads give `undefined`,
which is falsy and compares as `0` in the numeric contexts used here. -/
def tget (n : Nat) (f : Nat → Nat) (i : Nat) : Nat :=
  if i < n then f i else 0

/-- Write into a JS typed array of length `n`: out-of-range writes are ignored. -/
def tset (n : Nat) (f : Nat → Nat) (i v : Nat) : Nat → Nat :=
  fun j => if j = i ∧ i < n then v else f j

/-- JS `ToInteger` truncation (toward zero) of a number. -/
def jsTrunc (q : ℚ) : ℤ :=
  if 0 ≤ q then ⌊q⌋ else ⌈q⌉

/-- JS `ToUint8`: truncate toward zero, then reduce mod `2 ^ 8`.  This is what
an assignment into a `Uint8Array` performs on a fractional value. -/
def toUint8 (q : ℚ) : Nat :=
  (jsTrunc q % 256).toNat

/-- `rn(v, 2)` from the repository utilities: round to 2 decimal places
(`Math.round(v * 100) / 100`; `Math.round` rounds half toward `+∞`, which is
exactly Mathlib's `round`). -/
def rn (v : ℚ) : ℚ :=
  ((round (v * 100) : ℤ) : ℚ) / 100

/-- `isInMap(x, y)` from `submap.js`:
`x >= 0 && x <= graphWidth && y >= 0 && y <= graphHeight`. -/
def isInMap (W H x y : ℚ) : Prop :=
  (0 ≤ x ∧ x ≤ W) ∧ (0 ≤ y ∧ y ≤ H)

instance (W H x y : ℚ) : Decidable (isInMap W H x y) := by
  unfold isInMap; infer_instance

/-- `isWater(graph, cellId)` from `submap.js`: elevation below 20. -/
def isWater (n : Nat) (h : Nat → Nat) (cellId : Nat) : Prop :=
  tget n h cellId < 20

instance (n : Nat) (h : Nat → Nat) (c : Nat) : Decidable (isWater n h c) := by
  unfold isWater; infer_instance

/-- The repository's `unique` helper: `[...new Set(array)]`, i.e. remove
duplicates keeping the first occurrence of each element. -/
def jsUniqueGo (acc : List Nat) : List Nat → List Nat
  | [] => acc
  | a :: l => if a ∈ acc then jsUniqueGo acc l else jsUniqueGo (acc ++ [a]) l

/-- `unique(array)` = `[...new Set(array)]`. -/
def jsUnique (l : List Nat) : List Nat :=
  jsUniqueGo [] l

/-! ### Heightmap post-processing (`smoothHeightmap`, `depressRivers`) -/

/-- `d3.mean([height, ...neighborHeights])` inside `smoothHeightmap`: the mean
of the cell's current elevation and the elevations of its in-range neighbors
(`d3.mean` skips the `undefined` entries produced by out-of-range reads). -/
def meanHeight (c : Nat → List Nat) (n : Nat) (h : Nat → Nat) (k : Nat) : ℚ :=
  let heights : List ℚ :=
    ((h k : Nat) : ℚ) :: (c k).filterMap (fun j => if j < n then some ((h j : Nat) : ℚ) else none)
  heights.sum / (heights.length : ℚ)

/-- The body of the `forEach` in `smoothHeightmap` for one cell `k`:
`grid.cells.h[k] = isWater(grid, k) ? Math.min(mean, 19) : Math.max(mean, 20)`
(the store into the `Uint8Array` truncates). -/
def smoothStep (c : Nat → List Nat) (n : Nat) (k : Nat) (h : Nat → Nat) : Nat → Nat :=
  tset n h k (toUint8 (if h k < 20 then min (meanHeight c n h k) 19 else max (meanHeight c n h k) 20))

/-- Sequential iteration of `smoothStep` over a list of cell indices (the
`forEach` loop mutates the elevation array in place). -/
def smoothGo (c : Nat → List Nat) (n : Nat) : List Nat → (Nat → Nat) → Nat → Nat
  | [], h => h
  | k :: ks, h => smoothGo c n ks (smoothStep c n k h)

/-- `smoothHeightmap()` from `submap.js`: iterate over all cells in increasing
index order, mutating the elevation array in place.  `c` is the neighbor list
`grid.cells.c`, `n` the number of grid cells. -/
def smoothHeightmap (c : Nat → List Nat) (n : Nat) (h : Nat → Nat) : Nat → Nat :=
  smoothGo c n (List.range n) h

/-- Modelled from the spec (§4.3): the *pointwise* reading of smoothing, where
every cell's new elevation is computed from the **original** elevation field.
This is the reading claim C10 contrasts with the source. -/
def smoothPointwise (c : Nat → List Nat) (n : Nat) (h : Nat → Nat) : Nat → Nat :=
  fun k =>
    if k < n then toUint8 (if h k < 20 then min (meanHeight c n h k) 19 else max (meanHeight c n h k) 20)
    else h k

/-- The body of the `forEach` in `depressRivers` for one grid point: find the
nearest parent pack cell of the inverse-projected point; if it carries a river
and the current elevation exceeds 20, decrement the elevation. -/
def depressStep (inverse : ℚ → ℚ → ℚ × ℚ) (findParent : ℚ → ℚ → Nat)
    (riverOf : Nat → Nat) (n : Nat) (h : Nat → Nat) (k : Nat) (pt : ℚ × ℚ) : Nat → Nat :=
  let pxy := inverse pt.1 pt.2
  let parentPackCell := findParent pxy.1 pxy.2
  if riverOf parentPackCell ≠ 0 ∧ 20 < tget n h k then tset n h k (tget n h k - 1) else h

/-- Sequential iteration of `depressStep` with an explicit running index. -/
def depressGo (inverse : ℚ → ℚ → ℚ × ℚ) (findParent : ℚ → ℚ → Nat)
    (riverOf : Nat → Nat) (n : Nat) : Nat → List (ℚ × ℚ) → (Nat → Nat) → Nat → Nat
  | _, [], h => h
  | k, pt :: pts, h => depressGo inverse findParent riverOf n (k + 1) pts
      (depressStep inverse findParent riverOf n h k pt)

/-- `depressRivers(parentMap, inverse)` from `submap.js`.  `findParent` models
`parentMap.pack.cells.q.find`, `riverOf` is `parentMap.pack.cells.r`, `points`
is `grid.cells.points` (the elevation array has the same length). -/
def depressRivers (inverse : ℚ → ℚ → ℚ × ℚ) (findParent : ℚ → ℚ → Nat)
    (riverOf : Nat → Nat) (points : List (ℚ × ℚ)) (h : Nat → Nat) : Nat → Nat :=
  depressGo inverse findParent riverOf points.length 0 points h

/-! ### Entity records (interfaces `IBurg`, `ICulture`, … of the repository) -/

/-- `IBurg`: the burg fields the resampling code reads or writes.  A missing
`removed` / `lock` property in JS is falsy and is modelled as `false`. -/
structure IBurg where
  i : Nat
  cell : Nat
  x : ℚ
  y : ℚ
  population : ℚ
  removed : Bool
  lock : Bool
  deriving DecidableEq, Repr, Inhabited

/-- `ICulture`: the culture fields the resampling code reads or writes. -/
structure ICulture where
  i : Nat
  center : Nat
  removed : Bool
  lock : Bool
  deriving DecidableEq, Repr, Inhabited

/-- `IReligion`: the religion fields the resampling code reads or writes. -/
structure IReligion where
  i : Nat
  center : Nat
  removed : Bool
  lock : Bool
  deriving DecidableEq, Repr, Inhabited

/-- A military regiment of a state (`state.military` entries).  `bY` stands for
the source's `by` field (a Lean keyword). -/
structure IRegiment where
  cell : Nat
  x : ℚ
  y : ℚ
  bx : ℚ
  bY : ℚ
  deriving DecidableEq, Repr, Inhabited

/-- `IState`: the state fields the resampling code reads or writes. -/
structure IState where
  i : Nat
  capital : Nat
  center : Nat
  neighbors : List Nat
  military : List IRegiment
  removed : Bool
  lock : Bool
  deriving DecidableEq, Repr, Inhabited

/-- `IProvince`: the province fields the resampling code reads or writes. -/
structure IProvince where
  i : Nat
  burg : Nat
  center : Nat
  removed : Bool
  lock : Bool
  deriving DecidableEq, Repr, Inhabited

/-- A map marker.  Markers have no `removed` flag in the repository's data
model; the only deletion mechanism is removal from the collection. -/
structure IMarker where
  i : Nat
  x : ℚ
  y : ℚ
  cell : Nat
  deriving DecidableEq, Repr, Inhabited

/-- A zone: an entity owning a list of pack cell ids. -/
structure IZone where
  i : Nat
  cells : List Nat
  deriving DecidableEq, Repr, Inhabited

/-! ### `restoreBurgs` -/

/-- The body of the `map` in `restoreBurgs` for one parent burg, together with
the effect on the new map's `pack.cells.burg` array (modelled as a length-`n`
`Uint16Array`).  `find` models `packLandCellsQuadtree.find(x, y, Infinity)?.[2]`
(`none` when the land quadtree is empty).  Note the source mutates
`burg.population` *before* taking the copy, so every non-removed parent burg
object is scaled in place. -/
def migrateBurg (projection : ℚ → ℚ → ℚ × ℚ) (find : ℚ → ℚ → Option Nat)
    (W H scale : ℚ) (n : Nat) (cellsBurg : Nat → Nat) (burg : IBurg) :
    IBurg × (Nat → Nat) :=
  if burg.i = 0 ∨ burg.removed then (burg, cellsBurg)
  else
    let burg := {burg with population := burg.population * scale}
    let xy := projection burg.x burg.y
    let x := rn xy.1
    let y := rn xy.2
    if ¬ isInMap W H x y then ({burg with removed := true, lock := false}, cellsBurg)
    else
      match find x y with
      | none => ({burg with removed := true, lock := false}, cellsBurg)
      | some cell =>
        if tget n cellsBurg cell ≠ 0 then
          ({burg with removed := true, lock := false}, cellsBurg)
        else
          ({burg with x := x, y := y, cell := cell}, tset n cellsBurg cell (burg.i % 65536))

/-- The `map` of `restoreBurgs`, threading the `pack.cells.burg` array through
the per-burg steps in parent index order. -/
def restoreBurgsGo (projection : ℚ → ℚ → ℚ × ℚ) (find : ℚ → ℚ → Option Nat)
    (W H scale : ℚ) (n : Nat) : List IBurg → (Nat → Nat) → List IBurg × (Nat → Nat)
  | [], cellsBurg => ([], cellsBurg)
  | burg :: rest, cellsBurg =>
    let r := migrateBurg projection find W H scale n cellsBurg burg
    let t := restoreBurgsGo projection find W H scale n rest r.2
    (r.1 :: t.1, t.2)

/-- `restoreBurgs(parentMap, projection, options)`: returns the new
`pack.burgs` list and the final `pack.cells.burg` array. -/
def restoreBurgs (projection : ℚ → ℚ → ℚ × ℚ) (find : ℚ → ℚ → Option Nat)
    (W H scale : ℚ) (n : Nat) (burgs : List IBurg) (cellsBurg : Nat → Nat) :
    List IBurg × (Nat → Nat) :=
  restoreBurgsGo projection find W H scale n burgs cellsBurg

/-- The state of the *parent* map's `pack.burgs` array after `restoreBurgs`:
line 139 (`burg.population *= options.scale`) mutates each non-removed parent
burg object in place before the spread copy is taken. -/
def restoreBurgsParentAfter (scale : ℚ) (burgs : List IBurg) : List IBurg :=
  burgs.map (fun burg =>
    if burg.i = 0 ∨ burg.removed then burg
    else {burg with population := burg.population * scale})

/-! ### `restoreCultures` and `restoreReligions` -/

/-- The body of the `map` in `restoreCultures` for one parent culture.
`cellsCulture` is the value list of the new `pack.cells.culture` array
(`validCultures = new Set(pack.cells.culture)`), `parentCellsP` the parent
`pack.cells.p`, `poles` the pole-of-inaccessibility table, `findCell` the
global nearest-cell helper. -/
def migrateCulture (projection : ℚ → ℚ → ℚ × ℚ) (parentCellsP : Nat → ℚ × ℚ)
    (findCell : ℚ → ℚ → Nat) (poles : Nat → ℚ × ℚ) (W H : ℚ)
    (cellsCulture : List Nat) (culture : ICulture) : ICulture :=
  if culture.i = 0 ∨ culture.removed then culture
  else if culture.i ∉ cellsCulture then {culture with removed := true, lock := false}
  else
    let pxy := projection (parentCellsP culture.center).1 (parentCellsP culture.center).2
    let x := rn pxy.1
    let y := rn pxy.2
    let centerCoords := if isInMap W H x y then (x, y) else poles culture.i
    {culture with center := findCell centerCoords.1 centerCoords.2}

/-- `restoreCultures(parentMap, projection)`. -/
def restoreCultures (projection : ℚ → ℚ → ℚ × ℚ) (parentCellsP : Nat → ℚ × ℚ)
    (findCell : ℚ → ℚ → Nat) (poles : Nat → ℚ × ℚ) (W H : ℚ)
    (cellsCulture : List Nat) (cultures : List ICulture) : List ICulture :=
  cultures.map (migrateCulture projection parentCellsP findCell poles W H cellsCulture)

/-- The body of the `map` in `restoreReligions` for one parent religion
(same shape as `migrateCulture`, over the `pack.cells.religion` field). -/
def migrateReligion (projection : ℚ → ℚ → ℚ × ℚ) (parentCellsP : Nat → ℚ × ℚ)
    (findCell : ℚ → ℚ → Nat) (poles : Nat → ℚ × ℚ) (W H : ℚ)
    (cellsReligion : List Nat) (religion : IReligion) : IReligion :=
  if religion.i = 0 ∨ religion.removed then religion
  else if religion.i ∉ cellsReligion then {religion with removed := true, lock := false}
  else
    let pxy := projection (parentCellsP religion.center).1 (parentCellsP religion.center).2
    let x := rn pxy.1
    let y := rn pxy.2
    let centerCoords := if isInMap W H x y then (x, y) else poles religion.i
    {religion with center := findCell centerCoords.1 centerCoords.2}

/-- `restoreReligions(parentMap, projection)`. -/
def restoreReligions (projection : ℚ → ℚ → ℚ × ℚ) (parentCellsP : Nat → ℚ × ℚ)
    (findCell : ℚ → ℚ → Nat) (poles : Nat → ℚ × ℚ) (W H : ℚ)
    (cellsReligion : List Nat) (religions : List IReligion) : List IReligion :=
  religions.map (migrateReligion projection parentCellsP findCell poles W H cellsReligion)

/-! ### `restoreStates` -/

/-- Migration of one military regiment of a surviving state: re-snap its cell,
and reproject its base and current coordinates (rounded to 2 decimals). -/
def migrateRegiment (projection : ℚ → ℚ → ℚ × ℚ) (parentCellsP : Nat → ℚ × ℚ)
    (findCell : ℚ → ℚ → Nat) (regiment : IRegiment) : IRegiment :=
  let cellXY := projection (parentCellsP regiment.cell).1 (parentCellsP regiment.cell).2
  let cell := findCell cellXY.1 cellXY.2
  let baseXY := projection regiment.bx regiment.bY
  let curXY := projection regiment.x regiment.y
  {regiment with cell := cell, bx := rn baseXY.1, bY := rn baseXY.2,
                 x := rn curXY.1, y := rn curXY.2}

/-- The body of the first `map` in `restoreStates`: validity filtering, then
military and neighbor migration.  `cellsState` is the value list of the new
`pack.cells.state` array. -/
def migrateState (projection : ℚ → ℚ → ℚ × ℚ) (parentCellsP : Nat → ℚ × ℚ)
    (findCell : ℚ → ℚ → Nat) (cellsState : List Nat) (state : IState) : IState :=
  if state.i = 0 ∨ state.removed then state
  else if state.i ∉ cellsState then {state with removed := true, lock := false}
  else
    let military := state.military.map (migrateRegiment projection parentCellsP findCell)
    let neighbors := state.neighbors.filter (fun stateId => stateId ∈ cellsState)
    {state with neighbors := neighbors, military := military}

/-- The recentering `forEach` of `restoreStates` for one state:
`state.center = !capital?.removed ? capital.cell : findCell(...state.pole)`.
`poles` models the `state.pole` values written by the external
`BurgsAndStates.getPoles()`.  When `pack.burgs[state.capital]` is `undefined`
the source would dereference `undefined` (a crash); that case is `none`. -/
def recenterState (findCell : ℚ → ℚ → Nat) (burgs : List IBurg)
    (poles : Nat → ℚ × ℚ) (state : IState) : Option IState :=
  if state.i = 0 ∨ state.removed then some state
  else
    match burgs.get? state.capital with
    | some capital =>
      some {state with center :=
        if capital.removed then findCell (poles state.i).1 (poles state.i).2 else capital.cell}
    | none => none

/-- The recentering `forEach` over the whole state list. -/
def recenterStatesGo (findCell : ℚ → ℚ → Nat) (burgs : List IBurg)
    (poles : Nat → ℚ × ℚ) : List IState → Option (List IState)
  | [] => some []
  | s :: rest =>
    match recenterState findCell burgs poles s, recenterStatesGo findCell burgs poles rest with
    | some s2, some rest2 => some (s2 :: rest2)
    | _, _ => none

/-- `restoreStates(parentMap, projection)`: the validity/military/neighbor
`map`, followed by `BurgsAndStates.getPoles()` (external, summarized by
`poles`) and the capital-or-pole recentering pass.  `burgs` is the new
`pack.burgs` produced by `restoreBurgs`. -/
def restoreStates (projection : ℚ → ℚ → ℚ × ℚ) (parentCellsP : Nat → ℚ × ℚ)
    (findCell : ℚ → ℚ → Nat) (cellsState : List Nat) (burgs : List IBurg)
    (poles : Nat → ℚ × ℚ) (states : List IState) : Option (List IState) :=
  recenterStatesGo findCell burgs poles
    (states.map (migrateState projection parentCellsP findCell cellsState))

/-! ### `restoreProvinces` -/

/-- The body of the `map` in `restoreProvinces`: pure validity filtering. -/
def filterProvince (cellsProvince : List Nat) (province : IProvince) : IProvince :=
  if province.i = 0 ∨ province.removed then province
  else if province.i ∉ cellsProvince then {province with removed := true, lock := false}
  else province

/-- The recentering `forEach` of `restoreProvinces` for one province
(capital = `pack.burgs[province.burg]`, pole from `Provinces.getPoles()`). -/
def recenterProvince (findCell : ℚ → ℚ → Nat) (burgs : List IBurg)
    (poles : Nat → ℚ × ℚ) (province : IProvince) : Option IProvince :=
  if province.i = 0 ∨ province.removed then some province
  else
    match burgs.get? province.burg with
    | some capital =>
      some {province with center :=
        if capital.removed then findCell (poles province.i).1 (poles province.i).2 else capital.cell}
    | none => none

/-- The recentering `forEach` over the whole province list. -/
def recenterProvincesGo (findCell : ℚ → ℚ → Nat) (burgs : List IBurg)
    (poles : Nat → ℚ × ℚ) : List IProvince → Option (List IProvince)
  | [] => some []
  | p :: rest =>
    match recenterProvince findCell burgs poles p, recenterProvincesGo findCell burgs poles rest with
    | some p2, some rest2 => some (p2 :: rest2)
    | _, _ => none

/-- `restoreProvinces(parentMap)`. -/
def restoreProvinces (findCell : ℚ → ℚ → Nat) (cellsProvince : List Nat)
    (burgs : List IBurg) (poles : Nat → ℚ × ℚ) (provinces : List IProvince) :
    Option (List IProvince) :=
  recenterProvincesGo findCell burgs poles (provinces.map (filterProvince cellsProvince))

/-! ### `restoreMarkers` -/

/-- The coordinate/cell update applied to every marker object by the `forEach`
in `restoreMarkers` (there is no early return: it runs for deleted markers
too).  `findCell` receives the *unrounded* projected coordinates; the stored
coordinates are rounded to 2 decimals. -/
def migrateMarker (projection : ℚ → ℚ → ℚ × ℚ) (findCell : ℚ → ℚ → Nat)
    (marker : IMarker) : IMarker :=
  let xy := projection marker.x marker.y
  {marker with x := rn xy.1, y := rn xy.2, cell := findCell xy.1 xy.2}

/-- Whether the `forEach` in `restoreMarkers` calls `Markers.deleteMarker` for
this marker: the (unrounded) projected coordinate is out of map bounds. -/
def markerOutOfBounds (projection : ℚ → ℚ → ℚ × ℚ) (W H : ℚ) (marker : IMarker) : Prop :=
  ¬ isInMap W H (projection marker.x marker.y).1 (projection marker.x marker.y).2

instance (projection : ℚ → ℚ → ℚ × ℚ) (W H : ℚ) (m : IMarker) :
    Decidable (markerOutOfBounds projection W H m) := by
  unfold markerOutOfBounds; infer_instance

/-- `restoreMarkers(parentMap, projection)`: the resulting `pack.markers`
collection.  `Markers.deleteMarker` is not part of the resampling module;
modelled from the spec: "if out of bounds, delete it outright (markers have no
removed-flag soft-delete)" — it removes the marker with the given id from the
collection (the iteration itself continues over the original array). -/
def restoreMarkers (projection : ℚ → ℚ → ℚ × ℚ) (findCell : ℚ → ℚ → Nat)
    (W H : ℚ) (markers : List IMarker) : List IMarker :=
  let deletedIds := (markers.filter (fun m => markerOutOfBounds projection W H m)).map (·.i)
  (markers.map (migrateMarker projection findCell)).filter (fun m => m.i ∉ deletedIds)

/-- The state of the *parent* map's marker objects after `restoreMarkers`:
`pack.markers` aliases `parentMap.pack.markers`, and the `forEach` updates
`marker.x`, `marker.y`, `marker.cell` on every marker object — including the
ones just deleted, since there is no early return after `deleteMarker`. -/
def restoreMarkersParentAfter (projection : ℚ → ℚ → ℚ × ℚ) (findCell : ℚ → ℚ → Nat)
    (markers : List IMarker) : List IMarker :=
  markers.map (migrateMarker projection findCell)

/-! ### `restoreZones` -/

/-- The body of the `map` in `restoreZones` for one zone.  `findAll` models the
global `findAll(x, y, radius)` helper (all new cells within `radius` of the
point); `getSearchRadius` models line 234,
`Math.sqrt(parentMap.pack.cells.area[cellId] / Math.PI) * options.scale`,
a floating-point expression treated as an opaque per-cell radius passed to the
external `findAll`. -/
def migrateZone (projection : ℚ → ℚ → ℚ × ℚ) (parentCellsP : Nat → ℚ × ℚ)
    (findAll : ℚ → ℚ → ℚ → List Nat) (getSearchRadius : Nat → ℚ) (W H : ℚ)
    (zone : IZone) : IZone :=
  let cells :=
    (zone.cells.filterMap (fun cellId =>
      let xy := projection (parentCellsP cellId).1 (parentCellsP cellId).2
      if isInMap W H xy.1 xy.2 then some (findAll xy.1 xy.2 (getSearchRadius cellId))
      else none)).flatten
  {zone with cells := jsUnique cells}

/-- `restoreZones(parentMap, projection, options)`. -/
def restoreZones (projection : ℚ → ℚ → ℚ × ℚ) (parentCellsP : Nat → ℚ × ℚ)
    (findAll : ℚ → ℚ → ℚ → List Nat) (getSearchRadius : Nat → ℚ) (W H : ℚ)
    (zones : List IZone) : List IZone :=
  zones.map (migrateZone projection parentCellsP findAll getSearchRadius W H)

/-! ### General helper lemmas -/

lemma tget_lt (n : Nat) (f : Nat → Nat) (i : Nat) (h : i < n) : tget n f i = f i := by
  simp [tget, h]

lemma tget_tset_self (n : Nat) (f : Nat → Nat) (i v : Nat) (h : i < n) :
    tget n (tset n f i v) i = v := by
  simp [tget, tset, h]

lemma tget_tset_ne (n : Nat) (f : Nat → Nat) (i v j : Nat) (h : j ≠ i) :
    tget n (tset n f i v) j = tget n f j := by
  simp [tget, tset, h]

lemma getD_map_of_lt {α β : Type} (f : α → β) (l : List α) (k : Nat) (d : α) (d2 : β)
    (hk : k < l.length) : (l.map f).getD k d2 = f (l.getD k d) := by
  induction l generalizing k with
  | nil => simp at hk
  | cons a l ih =>
    cases k with
    | zero => simp [List.getD]
    | succ k =>
      simp only [List.length_cons, Nat.succ_lt_succ_iff] at hk
      simpa [List.getD] using ih k hk

lemma getD_eq_of_append {α : Type} (l1 l2 : List α) (k : Nat) (d : α) (hk : k < l1.length) :
    (l1 ++ l2).getD k d = l1.getD k d := by
  induction l1 generalizing k with
  | nil => simp at hk
  | cons a l ih =>
    cases k with
    | zero => simp [List.getD]
    | succ k =>
      simp only [List.length_cons, Nat.succ_lt_succ_iff] at hk
      simpa [List.getD] using ih k hk

lemma getD_append_full {α : Type} (l1 l2 : List α) (k : Nat) (d : α) :
    (l1 ++ l2).getD (l1.length + k) d = l2.getD k d := by
  induction l1 with
  | nil => simp
  | cons a l ih => simpa [List.getD, Nat.succ_add] using ih

lemma getD_append_at {α : Type} (l1 l2 : List α) (k : Nat) (d : α) (h : l1.length = k) :
    (l1 ++ l2).getD k d = l2.getD 0 d := by
  subst h
  simpa using getD_append_full l1 l2 0 d

lemma mem_jsUniqueGo (acc l : List Nat) (a : Nat) :
    a ∈ jsUniqueGo acc l ↔ a ∈ acc ∨ a ∈ l := by
  induction l generalizing acc with
  | nil => simp [jsUniqueGo]
  | cons b l ih =>
    by_cases hb : b ∈ acc
    · rw [jsUniqueGo, if_pos hb, ih]
      constructor
      · rintro (h | h)
        · exact Or.inl h
        · exact Or.inr (List.mem_cons_of_mem _ h)
      · rintro (h | h)
        · exact Or.inl h
        · rcases List.mem_cons.mp h with h | h
          · exact Or.inl (h ▸ hb)
          · exact Or.inr h
    · rw [jsUniqueGo, if_neg hb, ih]
      simp only [List.mem_append, List.mem_singleton, List.mem_cons]
      tauto

lemma nodup_jsUniqueGo (acc l : List Nat) (h : acc.Nodup) : (jsUniqueGo acc l).Nodup := by
  induction l generalizing acc with
  | nil => simpa [jsUniqueGo] using h
  | cons b l ih =>
    by_cases hb : b ∈ acc
    · rw [jsUniqueGo, if_pos hb]; exact ih acc h
    · rw [jsUniqueGo, if_neg hb]
      refine ih _ ?_
      simpa [List.nodup_append, h] using hb

lemma mem_jsUnique (l : List Nat) (a : Nat) : a ∈ jsUnique l ↔ a ∈ l := by
  simp [jsUnique, mem_jsUniqueGo]

lemma nodup_jsUnique (l : List Nat) : (jsUnique l).Nodup :=
  nodup_jsUniqueGo [] l List.nodup_nil

/-! ### Lemmas about `depressRivers` -/

lemma depressStep_ne (inverse : ℚ → ℚ → ℚ × ℚ) (findParent : ℚ → ℚ → Nat)
    (riverOf : Nat → Nat) (n : Nat) (h : Nat → Nat) (i : Nat) (pt : ℚ × ℚ) (k : Nat)
    (hk : k ≠ i) : depressStep inverse findParent riverOf n h i pt k = h k := by
  unfold depressStep
  split
  · simp [tset, hk]
  · rfl

lemma depressStep_at (inverse : ℚ → ℚ → ℚ × ℚ) (findParent : ℚ → ℚ → Nat)
    (riverOf : Nat → Nat) (n : Nat) (h : Nat → Nat) (k : Nat) (pt : ℚ × ℚ)
    (hk : k < n) :
    depressStep inverse findParent riverOf n h k pt k =
      (if riverOf (findParent (inverse pt.1 pt.2).1 (inverse pt.1 pt.2).2) ≠ 0 ∧ 20 < h k
       then h k - 1 else h k) := by
  unfold depressStep
  rw [tget_lt n h k hk]
  split
  · simp [tset, hk]
  · rfl

lemma depressGo_lt (inverse : ℚ → ℚ → ℚ × ℚ) (findParent : ℚ → ℚ → Nat)
    (riverOf : Nat → Nat) (n : Nat) (pts : List (ℚ × ℚ)) (i k : Nat) (h : Nat → Nat)
    (hk : k < i) : depressGo inverse findParent riverOf n i pts h k = h k := by
  induction pts generalizing i h with
  | nil => rfl
  | cons p pts ih =>
    rw [depressGo, ih _ _ (Nat.lt_succ_of_lt hk),
      depressStep_ne _ _ _ _ _ _ _ _ (Nat.ne_of_lt hk)]

lemma depressGo_at (inverse : ℚ → ℚ → ℚ × ℚ) (findParent : ℚ → ℚ → Nat)
    (riverOf : Nat → Nat) (n : Nat) (pts : List (ℚ × ℚ)) (i k : Nat) (h : Nat → Nat)
    (hk : k < pts.length) (hin : i + k < n) :
    depressGo inverse findParent riverOf n i pts h (i + k) =
      (if riverOf (findParent (inverse (pts.getD k (0, 0)).1 (pts.getD k (0, 0)).2).1
            (inverse (pts.getD k (0, 0)).1 (pts.getD k (0, 0)).2).2) ≠ 0 ∧ 20 < h (i + k)
       then h (i + k) - 1 else h (i + k)) := by
  induction pts generalizing i k h with
  | nil => simp at hk
  | cons p pts ih =>
    cases k with
    | zero =>
      simp only [Nat.add_zero] at hin ⊢
      rw [depressGo, depressGo_lt _ _ _ _ _ _ _ _ (Nat.lt_succ_self i)]
      simpa using depressStep_at inverse findParent riverOf n h i p hin
    | succ k =>
      simp only [List.length_cons, Nat.succ_lt_succ_iff] at hk
      have harr : i + (k + 1) = (i + 1) + k := by omega
      rw [depressGo, harr, ih _ _ _ hk (by omega),
        depressStep_ne _ _ _ _ _ _ _ _ (by omega)]
      rfl

/-! ### Claims C1 and C6 -/

/-- C1: the claim that `resample(parentMap, options)` leaves the parent map
unchanged is refuted by evaluating the embedded code at a concrete input:
`restoreBurgs` executes `burg.population *= options.scale` on the *parent's*
burg object before copying it, and `restoreMarkers` aliases the parent's
marker array and rewrites each parent marker's `x`, `y` and `cell` in place. -/
theorem c1_resample_mutates_parent :
    restoreBurgsParentAfter 2 [⟨1, 0, (5 : ℚ), 5, 10, false, false⟩] ≠
      [⟨1, 0, (5 : ℚ), 5, 10, false, false⟩] ∧
    restoreMarkersParentAfter (fun x y => (x + 100, y)) (fun _ _ => 7)
        [⟨1, (5 : ℚ), 5, 0⟩] ≠ [⟨1, (5 : ℚ), 5, 0⟩] := by
  constructor
  · norm_num [restoreBurgsParentAfter]
  · norm_num [restoreMarkersParentAfter, migrateMarker, rn, round_eq]

/-- C6: with `depressRivers` enabled, a new grid point whose inverse-projected
nearest parent cell carries a river has its elevation decremented by exactly 1
when it exceeds 20 and is unchanged otherwise; points without a river at the
nearest parent cell are unchanged, and no elevation is ever pushed below 20 by
this step. -/
theorem c6_depress_rivers (inverse : ℚ → ℚ → ℚ × ℚ) (findParent : ℚ → ℚ → Nat)
    (riverOf : Nat → Nat) (points : List (ℚ × ℚ)) (h : Nat → Nat) (k : Nat)
    (hk : k < points.length) :
    depressRivers inverse findParent riverOf points h k =
      (if riverOf (findParent (inverse (points.getD k (0, 0)).1 (points.getD k (0, 0)).2).1
            (inverse (points.getD k (0, 0)).1 (points.getD k (0, 0)).2).2) ≠ 0 ∧ 20 < h k
       then h k - 1 else h k) ∧
    (depressRivers inverse findParent riverOf points h k < 20 →
      depressRivers inverse findParent riverOf points h k = h k) := by
  have heq := depressGo_at inverse findParent riverOf points.length points 0 k h hk
    (by simpa using hk)
  simp only [Nat.zero_add] at heq
  refine ⟨heq, ?_⟩
  intro hlt
  unfold depressRivers at hlt ⊢
  rw [heq] at hlt ⊢
  split
  · next hcond =>
    rw [if_pos hcond] at hlt
    obtain ⟨-, h2⟩ := hcond
    omega
  · rfl

/-- Witness for C6 at a concrete input: two grid points, the first on a river
cell at elevation 30, which is depressed to 29. -/
theorem c6_depress_rivers_witness :
    depressRivers (fun x y => (x, y)) (fun _ _ => 0) (fun _ => 1)
      [((0 : ℚ), (0 : ℚ)), (1, 1)] (fun j => if j = 0 then 30 else 10) 0 = 29 := by
  have h := (c6_depress_rivers (fun x y => (x, y)) (fun _ _ => 0) (fun _ => 1)
    [((0 : ℚ), (0 : ℚ)), (1, 1)] (fun j => if j = 0 then 30 else 10) 0 (by decide)).1
  rw [h]
  decide

/-! ### Claim C9: zone migration -/

/-- C9: every migrated zone's cell list is duplicate-free, and a cell id is in
it exactly when some member cell of the parent zone projects into the map
bounds and the id is among the new cells returned by `findAll` within that
member's search radius; out-of-bounds members contribute nothing. -/
theorem c9_zone_cells (projection : ℚ → ℚ → ℚ × ℚ) (parentCellsP : Nat → ℚ × ℚ)
    (findAll : ℚ → ℚ → ℚ → List Nat) (getSearchRadius : Nat → ℚ) (W H : ℚ)
    (zones : List IZone) (k : Nat) (hk : k < zones.length) :
    ((restoreZones projection parentCellsP findAll getSearchRadius W H zones).getD k
        default).cells.Nodup ∧
    ∀ c, c ∈ ((restoreZones projection parentCellsP findAll getSearchRadius W H zones).getD k
        default).cells ↔
      ∃ cellId ∈ (zones.getD k default).cells,
        isInMap W H (projection (parentCellsP cellId).1 (parentCellsP cellId).2).1
          (projection (parentCellsP cellId).1 (parentCellsP cellId).2).2 ∧
        c ∈ findAll (projection (parentCellsP cellId).1 (parentCellsP cellId).2).1
          (projection (parentCellsP cellId).1 (parentCellsP cellId).2).2
          (getSearchRadius cellId) := by
  rw [restoreZones, getD_map_of_lt _ _ _ default _ hk]
  constructor
  · exact nodup_jsUnique _
  · intro c
    show c ∈ jsUnique _ ↔ _
    rw [mem_jsUnique, List.mem_flatten]
    constructor
    · rintro ⟨L, hL, hc⟩
      rw [List.mem_filterMap] at hL
      obtain ⟨cellId, hmem, hf⟩ := hL
      dsimp only at hf
      split at hf
      · next hin =>
        cases hf
        exact ⟨cellId, hmem, hin, hc⟩
      · cases hf
    · rintro ⟨cellId, hmem, hin, hc⟩
      refine ⟨findAll (projection (parentCellsP cellId).1 (parentCellsP cellId).2).1
        (projection (parentCellsP cellId).1 (parentCellsP cellId).2).2
        (getSearchRadius cellId), ?_, hc⟩
      rw [List.mem_filterMap]
      exact ⟨cellId, hmem, by simp [hin]⟩

/-- Witness for C9 at a concrete input: a zone with one in-bounds member and
one out-of-bounds member; `findAll` returns a list with a duplicate, which is
removed. -/
theorem c9_zone_cells_witness :
    ((restoreZones (fun x y => (x, y))
        (fun cid => if cid = 0 then ((1 : ℚ), (1 : ℚ)) else (50, 50))
        (fun _ _ _ => [3, 4, 3]) (fun _ => 1) 10 10 [⟨1, [0, 1]⟩]).getD 0
        default).cells.Nodup ∧
    3 ∈ ((restoreZones (fun x y => (x, y))
        (fun cid => if cid = 0 then ((1 : ℚ), (1 : ℚ)) else (50, 50))
        (fun _ _ _ => [3, 4, 3]) (fun _ => 1) 10 10 [⟨1, [0, 1]⟩]).getD 0
        default).cells := by
  have h := c9_zone_cells (fun x y => (x, y))
    (fun cid => if cid = 0 then ((1 : ℚ), (1 : ℚ)) else (50, 50))
    (fun _ _ _ => [3, 4, 3]) (fun _ => 1) 10 10 [⟨1, [0, 1]⟩] 0 (by decide)
  refine ⟨h.1, (h.2 3).mpr ⟨0, by decide, ?_, by decide⟩⟩
  norm_num [isInMap]

/-! ### Claim C7: marker migration -/

/-- C7 counterexample: an out-of-bounds marker is hard-deleted from the
collection, yet the marker's object still receives the coordinate and cell
update (the `forEach` has no early return after `Markers.deleteMarker`), so
"a deleted marker undergoes no further update" is false. -/
theorem c7_deleted_marker_still_updated :
    restoreMarkers (fun x y => (x + 100, y)) (fun _ _ => 7) 20 20 [⟨1, (5 : ℚ), 5, 0⟩] = [] ∧
    restoreMarkersParentAfter (fun x y => (x + 100, y)) (fun _ _ => 7) [⟨1, (5 : ℚ), 5, 0⟩] =
      [⟨1, (105 : ℚ), 5, 7⟩] := by
  constructor
  · have hoob : markerOutOfBounds (fun x y : ℚ => (x + 100, y)) 20 20 ⟨1, (5 : ℚ), 5, 0⟩ := by
      norm_num [markerOutOfBounds, isInMap]
    simp [restoreMarkers, hoob, migrateMarker]
  · simp only [restoreMarkersParentAfter, migrateMarker, List.map_cons, List.map_nil]
    norm_num [rn, round_eq]

/-- C7 (amended): an out-of-bounds marker's id disappears from the collection
(hard delete, no `removed` flag exists on markers); an in-bounds marker
survives with coordinates rounded to 2 decimals and cell re-snapped; but every
marker object — deleted ones included — is rewritten by the loop. -/
theorem c7_marker_migration (projection : ℚ → ℚ → ℚ × ℚ) (findCell : ℚ → ℚ → Nat)
    (W H : ℚ) (markers : List IMarker) (hids : (markers.map (·.i)).Nodup)
    (k : Nat) (hk : k < markers.length) :
    (markerOutOfBounds projection W H (markers.getD k default) →
      ∀ m' ∈ restoreMarkers projection findCell W H markers,
        m'.i ≠ (markers.getD k default).i) ∧
    (¬ markerOutOfBounds projection W H (markers.getD k default) →
      migrateMarker projection findCell (markers.getD k default) ∈
        restoreMarkers projection findCell W H markers) ∧
    ((restoreMarkersParentAfter projection findCell markers).getD k default =
      migrateMarker projection findCell (markers.getD k default)) ∧
    (migrateMarker projection findCell (markers.getD k default)).x =
      rn (projection (markers.getD k default).x (markers.getD k default).y).1 ∧
    (migrateMarker projection findCell (markers.getD k default)).y =
      rn (projection (markers.getD k default).x (markers.getD k default).y).2 ∧
    (migrateMarker projection findCell (markers.getD k default)).cell =
      findCell (projection (markers.getD k default).x (markers.getD k default).y).1
        (projection (markers.getD k default).x (markers.getD k default).y).2 := by
  have hmem : markers.getD k default ∈ markers := by
    rw [List.getD_eq_getElem markers default hk]
    exact List.getElem_mem hk
  refine ⟨?_, ?_, ?_, rfl, rfl, rfl⟩
  · intro hoob m' hm'
    rw [restoreMarkers, List.mem_filter] at hm'
    have h2 := of_decide_eq_true hm'.2
    intro hEq
    apply h2
    rw [List.mem_map]
    exact ⟨markers.getD k default,
      List.mem_filter.mpr ⟨hmem, decide_eq_true hoob⟩, hEq.symm⟩
  · intro hin
    rw [restoreMarkers, List.mem_filter]
    refine ⟨List.mem_map.mpr ⟨markers.getD k default, hmem, rfl⟩, decide_eq_true ?_⟩
    intro hmi
    rw [List.mem_map] at hmi
    obtain ⟨m, hmf, hmiEq⟩ := hmi
    rw [List.mem_filter] at hmf
    have hmm : m = markers.getD k default :=
      List.inj_on_of_nodup_map hids hmf.1 hmem hmiEq
    apply hin
    rw [← hmm]
    exact of_decide_eq_true hmf.2
  · exact getD_map_of_lt _ _ _ default _ hk

/-- Witness for C7 at a concrete input: marker 2 projects out of bounds and is
deleted; marker 1 stays, with its cell re-snapped. -/
theorem c7_marker_migration_witness :
    (∀ m' ∈ restoreMarkers (fun x y : ℚ => (x, y)) (fun _ _ => 3) 20 20
        [⟨1, (5 : ℚ), 5, 0⟩, ⟨2, (50 : ℚ), 50, 0⟩], m'.i ≠ 2) ∧
    (⟨1, (5 : ℚ), 5, 3⟩ : IMarker) ∈ restoreMarkers (fun x y : ℚ => (x, y)) (fun _ _ => 3) 20 20
        [⟨1, (5 : ℚ), 5, 0⟩, ⟨2, (50 : ℚ), 50, 0⟩] := by
  constructor
  · have h := (c7_marker_migration (fun x y : ℚ => (x, y)) (fun _ _ => 3) 20 20
      [⟨1, (5 : ℚ), 5, 0⟩, ⟨2, (50 : ℚ), 50, 0⟩] (by decide) 1 (by decide)).1
    exact h (by norm_num [markerOutOfBounds, isInMap])
  · have h := ((c7_marker_migration (fun x y : ℚ => (x, y)) (fun _ _ => 3) 20 20
      [⟨1, (5 : ℚ), 5, 0⟩, ⟨2, (50 : ℚ), 50, 0⟩] (by decide) 0 (by decide)).2.1)
      (by norm_num [markerOutOfBounds, isInMap])
    have heval : migrateMarker (fun x y : ℚ => (x, y)) (fun _ _ => 3)
        (([⟨1, (5 : ℚ), 5, 0⟩, ⟨2, (50 : ℚ), 50, 0⟩] :
          List IMarker).getD 0 default) = ⟨1, (5 : ℚ), 5, 3⟩ := by
      simp only [List.getD]
      norm_num [migrateMarker, rn, round_eq]
    rwa [heval] at h

/-! ### Lemmas about `recenterStatesGo` -/

lemma recenterStatesGo_length (findCell : ℚ → ℚ → Nat) (burgs : List IBurg)
    (poles : Nat → ℚ × ℚ) (l l' : List IState)
    (h : recenterStatesGo findCell burgs poles l = some l') : l'.length = l.length := by
  induction l generalizing l' with
  | nil => cases h; rfl
  | cons s rest ih =>
    rw [recenterStatesGo] at h
    cases h1 : recenterState findCell burgs poles s with
    | none => rw [h1] at h; cases h
    | some s2 =>
      cases h2 : recenterStatesGo findCell burgs poles rest with
      | none => rw [h1, h2] at h; cases h
      | some rest2 =>
        rw [h1, h2] at h
        cases h
        simpa using ih rest2 h2

lemma recenterStatesGo_getD (findCell : ℚ → ℚ → Nat) (burgs : List IBurg)
    (poles : Nat → ℚ × ℚ) (l l' : List IState)
    (h : recenterStatesGo findCell burgs poles l = some l') (k : Nat) (hk : k < l.length)
    (d : IState) :
    recenterState findCell burgs poles (l.getD k d) = some (l'.getD k d) := by
  induction l generalizing l' k with
  | nil => simp at hk
  | cons s rest ih =>
    rw [recenterStatesGo] at h
    cases h1 : recenterState findCell burgs poles s with
    | none => rw [h1] at h; cases h
    | some s2 =>
      cases h2 : recenterStatesGo findCell burgs poles rest with
      | none => rw [h1, h2] at h; cases h
      | some rest2 =>
        rw [h1, h2] at h
        cases h
        cases k with
        | zero => simpa [List.getD] using h1
        | succ k =>
          simp only [List.length_cons, Nat.succ_lt_succ_iff] at hk
          simpa [List.getD] using ih rest2 h2 k hk

/-! ### Claim C8: state recentering -/

/-- C8: after `restoreStates`, every surviving state's center is its capital
burg's new cell when that capital is not removed, and otherwise the cell
containing the state's pole of inaccessibility. -/
theorem c8_state_recentering (projection : ℚ → ℚ → ℚ × ℚ) (parentCellsP : Nat → ℚ × ℚ)
    (findCell : ℚ → ℚ → Nat) (cellsState : List Nat) (burgs : List IBurg)
    (poles : Nat → ℚ × ℚ) (states : List IState) (out : List IState)
    (hout : restoreStates projection parentCellsP findCell cellsState burgs poles states =
      some out)
    (k : Nat) (hk : k < out.length)
    (hi : (out.getD k default).i ≠ 0) (hrem : (out.getD k default).removed = false) :
    ∃ capital, burgs.get? (out.getD k default).capital = some capital ∧
      (out.getD k default).center =
        (if capital.removed then findCell (poles (out.getD k default).i).1
            (poles (out.getD k default).i).2
         else capital.cell) := by
  rw [restoreStates] at hout
  have hlen := recenterStatesGo_length _ _ _ _ _ hout
  have hk2 : k < (states.map (migrateState projection parentCellsP findCell cellsState)).length :=
    hlen ▸ hk
  have half := recenterStatesGo_getD _ _ _ _ _ hout k hk2 default
  set s0 := (states.map (migrateState projection parentCellsP findCell cellsState)).getD k
    default with hs0
  rw [recenterState] at half
  split at half
  · next hcase =>
    rw [Option.some_inj] at half
    rw [← half] at hi hrem
    rcases hcase with hcase | hcase
    · exact absurd hcase hi
    · rw [hrem] at hcase; cases hcase
  · cases hcap : burgs.get? s0.capital with
    | none => rw [hcap] at half; cases half
    | some capital =>
      rw [hcap] at half
      rw [Option.some_inj] at half
      refine ⟨capital, ?_, ?_⟩
      · rw [← half]
        exact hcap
      · rw [← half]

/-- Witness for C8 at a concrete input: state 1's capital is burg 1, which is
not removed, so the state's center becomes the capital's cell 5. -/
theorem c8_state_recentering_witness :
    ∃ capital,
      [(⟨0, 0, 0, 0, 0, false, false⟩ : IBurg),
        ⟨1, 5, 0, 0, 0, false, false⟩].get? (([(⟨1, 1, 5, [], [], false, false⟩ :
          IState)].getD 0 default).capital) = some capital ∧
      ([(⟨1, 1, 5, [], [], false, false⟩ : IState)].getD 0 default).center =
        (if capital.removed then
          (fun _ _ => 9) (((fun _ => ((0 : ℚ), (0 : ℚ))) (([(⟨1, 1, 5, [], [], false,
            false⟩ : IState)].getD 0 default).i)).1)
            (((fun _ => ((0 : ℚ), (0 : ℚ))) (([(⟨1, 1, 5, [], [], false, false⟩ :
              IState)].getD 0 default).i)).2)
         else capital.cell) :=
  c8_state_recentering (fun x y => (x, y)) (fun _ => ((0 : ℚ), (0 : ℚ))) (fun _ _ => 9) [1]
    [⟨0, 0, 0, 0, 0, false, false⟩, ⟨1, 5, 0, 0, 0, false, false⟩]
    (fun _ => ((0 : ℚ), (0 : ℚ))) [⟨1, 1, 0, [], [], false, false⟩]
    [⟨1, 1, 5, [], [], false, false⟩] (by rfl) 0 (by decide) (by decide) (by decide)

/-! ### Per-category validity-filter lemmas (for claim C2) -/

lemma migrateCulture_spec (projection : ℚ → ℚ → ℚ × ℚ) (parentCellsP : Nat → ℚ × ℚ)
    (findCell : ℚ → ℚ → Nat) (poles : Nat → ℚ × ℚ) (W H : ℚ)
    (cellsCulture : List Nat) (e : ICulture) :
    (migrateCulture projection parentCellsP findCell poles W H cellsCulture e).i = e.i ∧
    ((migrateCulture projection parentCellsP findCell poles W H cellsCulture e).removed = false →
      e.i ≠ 0 → e.i ∈ cellsCulture) ∧
    (e.i ≠ 0 → e.removed = false → e.i ∉ cellsCulture →
      (migrateCulture projection parentCellsP findCell poles W H cellsCulture e).removed = true ∧
      (migrateCulture projection parentCellsP findCell poles W H cellsCulture e).lock = false) := by
  unfold migrateCulture
  split
  · next hcond =>
    refine ⟨rfl, ?_, ?_⟩
    · intro hrem hi
      have := hcond.resolve_left hi
      rw [hrem] at this
      cases this
    · intro hi hrem _
      have := hcond.resolve_left hi
      rw [hrem] at this
      cases this
  · next hcond =>
    split
    · next hnot =>
      refine ⟨rfl, ?_, ?_⟩
      · intro hrem _
        cases hrem
      · intro _ _ _
        exact ⟨rfl, rfl⟩
    · next hnot =>
      refine ⟨rfl, ?_, ?_⟩
      · intro _ _
        exact not_not.mp hnot
      · intro _ _ hmem
        exact absurd (not_not.mp hnot) hmem

lemma migrateReligion_spec (projection : ℚ → ℚ → ℚ × ℚ) (parentCellsP : Nat → ℚ × ℚ)
    (findCell : ℚ → ℚ → Nat) (poles : Nat → ℚ × ℚ) (W H : ℚ)
    (cellsReligion : List Nat) (e : IReligion) :
    (migrateReligion projection parentCellsP findCell poles W H cellsReligion e).i = e.i ∧
    ((migrateReligion projection parentCellsP findCell poles W H cellsReligion e).removed = false →
      e.i ≠ 0 → e.i ∈ cellsReligion) ∧
    (e.i ≠ 0 → e.removed = false → e.i ∉ cellsReligion →
      (migrateReligion projection parentCellsP findCell poles W H cellsReligion e).removed = true ∧
      (migrateReligion projection parentCellsP findCell poles W H cellsReligion e).lock = false) := by
  unfold migrateReligion
  split
  · next hcond =>
    refine ⟨rfl, ?_, ?_⟩
    · intro hrem hi
      have := hcond.resolve_left hi
      rw [hrem] at this
      cases this
    · intro hi hrem _
      have := hcond.resolve_left hi
      rw [hrem] at this
      cases this
  · next hcond =>
    split
    · next hnot =>
      refine ⟨rfl, ?_, ?_⟩
      · intro hrem _
        cases hrem
      · intro _ _ _
        exact ⟨rfl, rfl⟩
    · next hnot =>
      refine ⟨rfl, ?_, ?_⟩
      · intro _ _
        exact not_not.mp hnot
      · intro _ _ hmem
        exact absurd (not_not.mp hnot) hmem

lemma migrateState_spec (projection : ℚ → ℚ → ℚ × ℚ) (parentCellsP : Nat → ℚ × ℚ)
    (findCell : ℚ → ℚ → Nat) (cellsState : List Nat) (e : IState) :
    (migrateState projection parentCellsP findCell cellsState e).i = e.i ∧
    ((migrateState projection parentCellsP findCell cellsState e).removed = false →
      e.i ≠ 0 → e.i ∈ cellsState) ∧
    (e.i ≠ 0 → e.removed = false → e.i ∉ cellsState →
      (migrateState projection parentCellsP findCell cellsState e).removed = true ∧
      (migrateState projection parentCellsP findCell cellsState e).lock = false) := by
  unfold migrateState
  split
  · next hcond =>
    refine ⟨rfl, ?_, ?_⟩
    · intro hrem hi
      have := hcond.resolve_left hi
      rw [hrem] at this
      cases this
    · intro hi hrem _
      have := hcond.resolve_left hi
      rw [hrem] at this
      cases this
  · next hcond =>
    split
    · next hnot =>
      refine ⟨rfl, ?_, ?_⟩
      · intro hrem _
        cases hrem
      · intro _ _ _
        exact ⟨rfl, rfl⟩
    · next hnot =>
      refine ⟨rfl, ?_, ?_⟩
      · intro _ _
        exact not_not.mp hnot
      · intro _ _ hmem
        exact absurd (not_not.mp hnot) hmem

lemma filterProvince_spec (cellsProvince : List Nat) (e : IProvince) :
    (filterProvince cellsProvince e).i = e.i ∧
    ((filterProvince cellsProvince e).removed = false → e.i ≠ 0 → e.i ∈ cellsProvince) ∧
    (e.i ≠ 0 → e.removed = false → e.i ∉ cellsProvince →
      (filterProvince cellsProvince e).removed = true ∧
      (filterProvince cellsProvince e).lock = false) := by
  unfold filterProvince
  split
  · next hcond =>
    refine ⟨rfl, ?_, ?_⟩
    · intro hrem hi
      have := hcond.resolve_left hi
      rw [hrem] at this
      cases this
    · intro hi hrem _
      have := hcond.resolve_left hi
      rw [hrem] at this
      cases this
  · next hcond =>
    split
    · next hnot =>
      refine ⟨rfl, ?_, ?_⟩
      · intro hrem _
        cases hrem
      · intro _ _ _
        exact ⟨rfl, rfl⟩
    · next hnot =>
      refine ⟨rfl, ?_, ?_⟩
      · intro _ _
        exact not_not.mp hnot
      · intro _ _ hmem
        exact absurd (not_not.mp hnot) hmem

lemma recenterState_fields (findCell : ℚ → ℚ → Nat) (burgs : List IBurg)
    (poles : Nat → ℚ × ℚ) (s s' : IState)
    (h : recenterState findCell burgs poles s = some s') :
    s'.i = s.i ∧ s'.removed = s.removed ∧ s'.lock = s.lock := by
  rw [recenterState] at h
  split at h
  · cases h; exact ⟨rfl, rfl, rfl⟩
  · cases hcap : burgs.get? s.capital with
    | none => rw [hcap] at h; cases h
    | some capital => rw [hcap] at h; cases h; exact ⟨rfl, rfl, rfl⟩

lemma recenterProvince_fields (findCell : ℚ → ℚ → Nat) (burgs : List IBurg)
    (poles : Nat → ℚ × ℚ) (p p' : IProvince)
    (h : recenterProvince findCell burgs poles p = some p') :
    p'.i = p.i ∧ p'.removed = p.removed ∧ p'.lock = p.lock := by
  rw [recenterProvince] at h
  split at h
  · cases h; exact ⟨rfl, rfl, rfl⟩
  · cases hcap : burgs.get? p.burg with
    | none => rw [hcap] at h; cases h
    | some capital => rw [hcap] at h; cases h; exact ⟨rfl, rfl, rfl⟩

lemma recenterProvincesGo_length (findCell : ℚ → ℚ → Nat) (burgs : List IBurg)
    (poles : Nat → ℚ × ℚ) (l l' : List IProvince)
    (h : recenterProvincesGo findCell burgs poles l = some l') : l'.length = l.length := by
  induction l generalizing l' with
  | nil => cases h; rfl
  | cons p rest ih =>
    rw [recenterProvincesGo] at h
    cases h1 : recenterProvince findCell burgs poles p with
    | none => rw [h1] at h; cases h
    | some p2 =>
      cases h2 : recenterProvincesGo findCell burgs poles rest with
      | none => rw [h1, h2] at h; cases h
      | some rest2 =>
        rw [h1, h2] at h
        cases h
        simpa using ih rest2 h2

lemma recenterProvincesGo_getD (findCell : ℚ → ℚ → Nat) (burgs : List IBurg)
    (poles : Nat → ℚ × ℚ) (l l' : List IProvince)
    (h : recenterProvincesGo findCell burgs poles l = some l') (k : Nat) (hk : k < l.length)
    (d : IProvince) :
    recenterProvince findCell burgs poles (l.getD k d) = some (l'.getD k d) := by
  induction l generalizing l' k with
  | nil => simp at hk
  | cons p rest ih =>
    rw [recenterProvincesGo] at h
    cases h1 : recenterProvince findCell burgs poles p with
    | none => rw [h1] at h; cases h
    | some p2 =>
      cases h2 : recenterProvincesGo findCell burgs poles rest with
      | none => rw [h1, h2] at h; cases h
      | some rest2 =>
        rw [h1, h2] at h
        cases h
        cases k with
        | zero => simpa [List.getD] using h1
        | succ k =>
          simp only [List.length_cons, Nat.succ_lt_succ_iff] at hk
          simpa [List.getD] using ih rest2 h2 k hk

/-! ### Claim C2: entity-presence invariant and validity filtering -/

/-- C2: for each overlay category (culture, state, religion, province), an
entity that ends non-removed has its index present on some new pack cell of
that category, and a previously non-removed entity whose index appears on no
new cell is returned with `removed = true` and its lock flag cleared.  Index 0
is the data model's reserved "no entity" sentinel and is excluded. -/
theorem c2_entity_presence (projection : ℚ → ℚ → ℚ × ℚ) (parentCellsP : Nat → ℚ × ℚ)
    (findCell : ℚ → ℚ → Nat) (polesC polesR polesS polesP : Nat → ℚ × ℚ) (W H : ℚ)
    (cellsCulture cellsReligion cellsState cellsProvince : List Nat) (burgs : List IBurg)
    (cultures : List ICulture) (religions : List IReligion) (states : List IState)
    (provinces : List IProvince) (statesOut : List IState) (provincesOut : List IProvince)
    (hs : restoreStates projection parentCellsP findCell cellsState burgs polesS states =
      some statesOut)
    (hp : restoreProvinces findCell cellsProvince burgs polesP provinces =
      some provincesOut) :
    (∀ k, k < cultures.length →
      (((restoreCultures projection parentCellsP findCell polesC W H cellsCulture
          cultures).getD k default).removed = false →
        ((restoreCultures projection parentCellsP findCell polesC W H cellsCulture
          cultures).getD k default).i ≠ 0 →
        ((restoreCultures projection parentCellsP findCell polesC W H cellsCulture
          cultures).getD k default).i ∈ cellsCulture) ∧
      ((cultures.getD k default).i ≠ 0 → (cultures.getD k default).removed = false →
        (cultures.getD k default).i ∉ cellsCulture →
        ((restoreCultures projection parentCellsP findCell polesC W H cellsCulture
          cultures).getD k default).removed = true ∧
        ((restoreCultures projection parentCellsP findCell polesC W H cellsCulture
          cultures).getD k default).lock = false)) ∧
    (∀ k, k < religions.length →
      (((restoreReligions projection parentCellsP findCell polesR W H cellsReligion
          religions).getD k default).removed = false →
        ((restoreReligions projection parentCellsP findCell polesR W H cellsReligion
          religions).getD k default).i ≠ 0 →
        ((restoreReligions projection parentCellsP findCell polesR W H cellsReligion
          religions).getD k default).i ∈ cellsReligion) ∧
      ((religions.getD k default).i ≠ 0 → (religions.getD k default).removed = false →
        (religions.getD k default).i ∉ cellsReligion →
        ((restoreReligions projection parentCellsP findCell polesR W H cellsReligion
          religions).getD k default).removed = true ∧
        ((restoreReligions projection parentCellsP findCell polesR W H cellsReligion
          religions).getD k default).lock = false)) ∧
    (∀ k, k < states.length →
      (((statesOut.getD k default).removed = false → (statesOut.getD k default).i ≠ 0 →
        (statesOut.getD k default).i ∈ cellsState) ∧
      ((states.getD k default).i ≠ 0 → (states.getD k default).removed = false →
        (states.getD k default).i ∉ cellsState →
        (statesOut.getD k default).removed = true ∧
        (statesOut.getD k default).lock = false))) ∧
    (∀ k, k < provinces.length →
      (((provincesOut.getD k default).removed = false → (provincesOut.getD k default).i ≠ 0 →
        (provincesOut.getD k default).i ∈ cellsProvince) ∧
      ((provinces.getD k default).i ≠ 0 → (provinces.getD k default).removed = false →
        (provinces.getD k default).i ∉ cellsProvince →
        (provincesOut.getD k default).removed = true ∧
        (provincesOut.getD k default).lock = false))) := by
  refine ⟨?_, ?_, ?_, ?_⟩
  · intro k hk
    rw [restoreCultures, getD_map_of_lt _ _ _ default _ hk]
    have hspec := migrateCulture_spec projection parentCellsP findCell polesC W H
      cellsCulture (cultures.getD k default)
    constructor
    · intro hrem hi
      rw [hspec.1] at hi ⊢
      exact hspec.2.1 hrem hi
    · exact hspec.2.2
  · intro k hk
    rw [restoreReligions, getD_map_of_lt _ _ _ default _ hk]
    have hspec := migrateReligion_spec projection parentCellsP findCell polesR W H
      cellsReligion (religions.getD k default)
    constructor
    · intro hrem hi
      rw [hspec.1] at hi ⊢
      exact hspec.2.1 hrem hi
    · exact hspec.2.2
  · intro k hk
    rw [restoreStates] at hs
    have hk2 : k < (states.map
        (migrateState projection parentCellsP findCell cellsState)).length := by
      rw [List.length_map]; exact hk
    have half := recenterStatesGo_getD _ _ _ _ _ hs k hk2 default
    have hfields := recenterState_fields _ _ _ _ _ half
    rw [getD_map_of_lt _ _ _ default _ hk] at hfields
    have hspec := migrateState_spec projection parentCellsP findCell cellsState
      (states.getD k default)
    constructor
    · intro hrem hi
      rw [hfields.1, hspec.1] at hi ⊢
      rw [hfields.2.1] at hrem
      exact hspec.2.1 hrem hi
    · intro hi hrem hmem
      have h2 := hspec.2.2 hi hrem hmem
      rw [hfields.2.1, hfields.2.2]
      exact h2
  · intro k hk
    rw [restoreProvinces] at hp
    have hk2 : k < (provinces.map (filterProvince cellsProvince)).length := by
      rw [List.length_map]; exact hk
    have half := recenterProvincesGo_getD _ _ _ _ _ hp k hk2 default
    have hfields := recenterProvince_fields _ _ _ _ _ half
    rw [getD_map_of_lt _ _ _ default _ hk] at hfields
    have hspec := filterProvince_spec cellsProvince (provinces.getD k default)
    constructor
    · intro hrem hi
      rw [hfields.1, hspec.1] at hi ⊢
      rw [hfields.2.1] at hrem
      exact hspec.2.1 hrem hi
    · intro hi hrem hmem
      have h2 := hspec.2.2 hi hrem hmem
      rw [hfields.2.1, hfields.2.2]
      exact h2

/-- Witness for C2 at a concrete input: culture 2 is on no cell and comes back
removed with lock cleared; religion 1 is kept and its index is on a cell;
state 1 is kept with its index on a cell; province 3 is on no cell and comes
back removed with lock cleared. -/
theorem c2_entity_presence_witness :
    (((restoreCultures (fun x y => (x, y)) (fun _ => ((0 : ℚ), (0 : ℚ))) (fun _ _ => 0)
        (fun _ => ((0 : ℚ), (0 : ℚ))) 100 100 [1]
        [⟨2, 0, false, false⟩]).getD 0 default).removed = true ∧
      ((restoreCultures (fun x y => (x, y)) (fun _ => ((0 : ℚ), (0 : ℚ))) (fun _ _ => 0)
        (fun _ => ((0 : ℚ), (0 : ℚ))) 100 100 [1]
        [⟨2, 0, false, false⟩]).getD 0 default).lock = false) ∧
    ((restoreReligions (fun x y => (x, y)) (fun _ => ((0 : ℚ), (0 : ℚ))) (fun _ _ => 0)
        (fun _ => ((0 : ℚ), (0 : ℚ))) 100 100 [1]
        [⟨1, 0, false, false⟩]).getD 0 default).i ∈ ([1] : List Nat) ∧
    (([(⟨1, 1, 4, [], [], false, false⟩ : IState)].getD 0 default).i ∈ ([1] : List Nat)) ∧
    (([(⟨3, 0, 0, true, false⟩ : IProvince)].getD 0 default).removed = true ∧
      ([(⟨3, 0, 0, true, false⟩ : IProvince)].getD 0 default).lock = false) := by
  have h := c2_entity_presence (fun x y => (x, y)) (fun _ => ((0 : ℚ), (0 : ℚ)))
    (fun _ _ => 0) (fun _ => ((0 : ℚ), (0 : ℚ))) (fun _ => ((0 : ℚ), (0 : ℚ)))
    (fun _ => ((0 : ℚ), (0 : ℚ))) (fun _ => ((0 : ℚ), (0 : ℚ))) 100 100
    [1] [1] [1] [7]
    [⟨0, 0, 0, 0, 0, false, false⟩, ⟨1, 4, 0, 0, 0, false, false⟩]
    [⟨2, 0, false, false⟩] [⟨1, 0, false, false⟩]
    [⟨1, 1, 0, [], [], false, false⟩] [⟨3, 0, 0, false, false⟩]
    [⟨1, 1, 4, [], [], false, false⟩] [⟨3, 0, 0, true, false⟩]
    (by rfl) (by rfl)
  refine ⟨(h.1 0 (by decide)).2 (by decide) (by decide) (by decide), ?_, ?_, ?_⟩
  · exact (h.2.1 0 (by decide)).1 (by decide) (by decide)
  · exact (h.2.2.1 0 (by decide)).1 (by decide) (by decide)
  · exact (h.2.2.2 0 (by decide)).2 (by decide) (by decide) (by decide)

/-! ### Lemmas about `migrateBurg` and `restoreBurgsGo` (claims C3, C4) -/

section BurgLemmas

variable (projection : ℚ → ℚ → ℚ × ℚ) (find : ℚ → ℚ → Option Nat) (W H scale : ℚ) (n : Nat)

lemma tget_tset_out (f : Nat → Nat) (i v j : Nat) (h : ¬ i < n) :
    tget n (tset n f i v) j = tget n f j := by
  simp [tget, tset, h]

lemma migrateBurg_pass (cb : Nat → Nat) (b : IBurg) (hb : b.i = 0 ∨ b.removed = true) :
    migrateBurg projection find W H scale n cb b = (b, cb) := by
  rw [migrateBurg, if_pos hb]

lemma migrateBurg_oob (cb : Nat → Nat) (b : IBurg) (hb : ¬ (b.i = 0 ∨ b.removed = true))
    (hoob : ¬ isInMap W H (rn (projection b.x b.y).1) (rn (projection b.x b.y).2)) :
    migrateBurg projection find W H scale n cb b =
      ({b with population := b.population * scale, removed := true, lock := false}, cb) := by
  rw [migrateBurg, if_neg hb]
  dsimp only
  rw [if_pos hoob]

lemma migrateBurg_nofind (cb : Nat → Nat) (b : IBurg) (hb : ¬ (b.i = 0 ∨ b.removed = true))
    (hin : isInMap W H (rn (projection b.x b.y).1) (rn (projection b.x b.y).2))
    (hf : find (rn (projection b.x b.y).1) (rn (projection b.x b.y).2) = none) :
    migrateBurg projection find W H scale n cb b =
      ({b with population := b.population * scale, removed := true, lock := false}, cb) := by
  rw [migrateBurg, if_neg hb]
  dsimp only
  rw [if_neg (not_not_intro hin), hf]

lemma migrateBurg_occupied (cb : Nat → Nat) (b : IBurg) (c : Nat)
    (hb : ¬ (b.i = 0 ∨ b.removed = true))
    (hin : isInMap W H (rn (projection b.x b.y).1) (rn (projection b.x b.y).2))
    (hf : find (rn (projection b.x b.y).1) (rn (projection b.x b.y).2) = some c)
    (hocc : tget n cb c ≠ 0) :
    migrateBurg projection find W H scale n cb b =
      ({b with population := b.population * scale, removed := true, lock := false}, cb) := by
  rw [migrateBurg, if_neg hb]
  dsimp only
  rw [if_neg (not_not_intro hin), hf]
  dsimp only
  rw [if_pos hocc]

lemma migrateBurg_placed (cb : Nat → Nat) (b : IBurg) (c : Nat)
    (hb : ¬ (b.i = 0 ∨ b.removed = true))
    (hin : isInMap W H (rn (projection b.x b.y).1) (rn (projection b.x b.y).2))
    (hf : find (rn (projection b.x b.y).1) (rn (projection b.x b.y).2) = some c)
    (hfree : tget n cb c = 0) :
    migrateBurg projection find W H scale n cb b =
      ({b with
          population := b.population * scale
          x := rn (projection b.x b.y).1
          y := rn (projection b.x b.y).2
          cell := c},
        tset n cb c (b.i % 65536)) := by
  rw [migrateBurg, if_neg hb]
  dsimp only
  rw [if_neg (not_not_intro hin), hf]
  dsimp only
  rw [if_neg (by simp [hfree])]

/-- Case analysis on the outcome of one burg migration step: either the burg is
passed through (index 0 or already removed), or it comes back soft-removed with
the cell array untouched, or it is placed on a previously free cell. -/
lemma migrateBurg_outcome (cb : Nat → Nat) (b : IBurg) :
    ((b.i = 0 ∨ b.removed = true) ∧ migrateBurg projection find W H scale n cb b = (b, cb)) ∨
    (¬ (b.i = 0 ∨ b.removed = true) ∧
      migrateBurg projection find W H scale n cb b =
        ({b with population := b.population * scale, removed := true, lock := false}, cb)) ∨
    (∃ c, ¬ (b.i = 0 ∨ b.removed = true) ∧
      find (rn (projection b.x b.y).1) (rn (projection b.x b.y).2) = some c ∧
      tget n cb c = 0 ∧
      migrateBurg projection find W H scale n cb b =
        ({b with
            population := b.population * scale
            x := rn (projection b.x b.y).1
            y := rn (projection b.x b.y).2
            cell := c},
          tset n cb c (b.i % 65536))) := by
  by_cases hb : b.i = 0 ∨ b.removed = true
  · exact Or.inl ⟨hb, migrateBurg_pass projection find W H scale n cb b hb⟩
  · by_cases hin : isInMap W H (rn (projection b.x b.y).1) (rn (projection b.x b.y).2)
    · cases hf : find (rn (projection b.x b.y).1) (rn (projection b.x b.y).2) with
      | none =>
        exact Or.inr (Or.inl ⟨hb, migrateBurg_nofind projection find W H scale n cb b hb hin hf⟩)
      | some c =>
        by_cases hocc : tget n cb c = 0
        · exact Or.inr (Or.inr ⟨c, hb, rfl, hocc,
            migrateBurg_placed projection find W H scale n cb b c hb hin hf hocc⟩)
        · exact Or.inr (Or.inl ⟨hb,
            migrateBurg_occupied projection find W H scale n cb b c hb hin hf hocc⟩)
    · exact Or.inr (Or.inl ⟨hb, migrateBurg_oob projection find W H scale n cb b hb hin⟩)

lemma restoreBurgsGo_cons (cb : Nat → Nat) (b : IBurg) (bs : List IBurg) :
    restoreBurgsGo projection find W H scale n (b :: bs) cb =
      ((migrateBurg projection find W H scale n cb b).1 ::
        (restoreBurgsGo projection find W H scale n bs
          (migrateBurg projection find W H scale n cb b).2).1,
       (restoreBurgsGo projection find W H scale n bs
         (migrateBurg projection find W H scale n cb b).2).2) := rfl

lemma restoreBurgsGo_length (bs : List IBurg) (cb : Nat → Nat) :
    (restoreBurgsGo projection find W H scale n bs cb).1.length = bs.length := by
  induction bs generalizing cb with
  | nil => rfl
  | cons b bs ih => simp [restoreBurgsGo_cons, ih]

lemma restoreBurgsGo_append2 (l1 l2 : List IBurg) (cb : Nat → Nat) :
    restoreBurgsGo projection find W H scale n (l1 ++ l2) cb =
      ((restoreBurgsGo projection find W H scale n l1 cb).1 ++
         (restoreBurgsGo projection find W H scale n l2
           (restoreBurgsGo projection find W H scale n l1 cb).2).1,
       (restoreBurgsGo projection find W H scale n l2
         (restoreBurgsGo projection find W H scale n l1 cb).2).2) := by
  induction l1 generalizing cb with
  | nil => rfl
  | cons b l ih => simp [restoreBurgsGo_cons, ih]

lemma restoreBurgsGo_getD_i (bs : List IBurg) (cb : Nat → Nat) (k : Nat) :
    (((restoreBurgsGo projection find W H scale n bs cb).1.getD k default).i) =
      ((bs.getD k default).i) := by
  induction bs generalizing cb k with
  | nil => rfl
  | cons b bs ih =>
    rcases migrateBurg_outcome projection find W H scale n cb b with
      ⟨hb, heq⟩ | ⟨hb, heq⟩ | ⟨c0, hb, hf, hfree, heq⟩ <;>
      cases k with
      | zero => simp [restoreBurgsGo_cons, heq, List.getD]
      | succ k => simpa [restoreBurgsGo_cons, heq, List.getD] using ih _ k

lemma restoreBurgsGo_tget_preserved (bs : List IBurg) (cb : Nat → Nat) (c : Nat)
    (hc : tget n cb c ≠ 0) :
    tget n (restoreBurgsGo projection find W H scale n bs cb).2 c = tget n cb c := by
  induction bs generalizing cb with
  | nil => rfl
  | cons b bs ih =>
    rcases migrateBurg_outcome projection find W H scale n cb b with
      ⟨hb, heq⟩ | ⟨hb, heq⟩ | ⟨c0, hb, hf, hfree, heq⟩
    · simp only [restoreBurgsGo_cons, heq]
      exact ih cb hc
    · simp only [restoreBurgsGo_cons, heq]
      exact ih cb hc
    · simp only [restoreBurgsGo_cons, heq]
      have hne : c ≠ c0 := fun h => hc (h ▸ hfree)
      have hcb2 : tget n (tset n cb c0 (b.i % 65536)) c = tget n cb c :=
        tget_tset_ne n cb c0 (b.i % 65536) c hne
      rw [ih _ (by rw [hcb2]; exact hc), hcb2]

lemma restoreBurgsGo_noplace (bs : List IBurg) (cb : Nat → Nat) (c : Nat)
    (hc : tget n cb c ≠ 0) :
    ∀ b2 ∈ (restoreBurgsGo projection find W H scale n bs cb).1,
      b2.i ≠ 0 → b2.removed = false → b2.cell ≠ c := by
  induction bs generalizing cb with
  | nil =>
    intro b2 hb2
    simp [restoreBurgsGo] at hb2
  | cons b bs ih =>
    rcases migrateBurg_outcome projection find W H scale n cb b with
      ⟨hb, heq⟩ | ⟨hb, heq⟩ | ⟨c0, hb, hf, hfree, heq⟩
    · simp only [restoreBurgsGo_cons, heq]
      intro b2 hb2 hi hrem
      rcases List.mem_cons.mp hb2 with h | h
      · subst h
        rcases hb with h0 | h0
        · exact absurd h0 hi
        · rw [hrem] at h0; cases h0
      · exact ih cb hc b2 h hi hrem
    · simp only [restoreBurgsGo_cons, heq]
      intro b2 hb2 hi hrem
      rcases List.mem_cons.mp hb2 with h | h
      · subst h
        simp at hrem
      · exact ih cb hc b2 h hi hrem
    · simp only [restoreBurgsGo_cons, heq]
      intro b2 hb2 hi hrem
      have hne : c ≠ c0 := fun h => hc (h ▸ hfree)
      rcases List.mem_cons.mp hb2 with h | h
      · subst h
        simpa using hne.symm
      · have hcb2 : tget n (tset n cb c0 (b.i % 65536)) c = tget n cb c :=
          tget_tset_ne n cb c0 (b.i % 65536) c hne
        exact ih _ (by rw [hcb2]; exact hc) b2 h hi hrem

lemma restoreBurgsGo_final_value (bs : List IBurg) (cb : Nat → Nat)
    (h16 : ∀ b ∈ bs, b.i < 65536)
    (hfind : ∀ x y c, find x y = some c → c < n) :
    ∀ b2 ∈ (restoreBurgsGo projection find W H scale n bs cb).1,
      b2.i ≠ 0 → b2.removed = false →
        tget n (restoreBurgsGo projection find W H scale n bs cb).2 b2.cell = b2.i := by
  induction bs generalizing cb with
  | nil =>
    intro b2 hb2
    simp [restoreBurgsGo] at hb2
  | cons b bs ih =>
    have h16t : ∀ b3 ∈ bs, b3.i < 65536 := fun b3 h3 => h16 b3 (List.mem_cons_of_mem b h3)
    rcases migrateBurg_outcome projection find W H scale n cb b with
      ⟨hb, heq⟩ | ⟨hb, heq⟩ | ⟨c0, hb, hf, hfree, heq⟩
    · simp only [restoreBurgsGo_cons, heq]
      intro b2 hb2 hi hrem
      rcases List.mem_cons.mp hb2 with h | h
      · subst h
        rcases hb with h0 | h0
        · exact absurd h0 hi
        · rw [hrem] at h0; cases h0
      · exact ih cb h16t b2 h hi hrem
    · simp only [restoreBurgsGo_cons, heq]
      intro b2 hb2 hi hrem
      rcases List.mem_cons.mp hb2 with h | h
      · subst h
        simp at hrem
      · exact ih cb h16t b2 h hi hrem
    · simp only [restoreBurgsGo_cons, heq]
      intro b2 hb2 hi hrem
      have hc0n : c0 < n := hfind _ _ _ hf
      have hbne : b.i ≠ 0 := fun h => hb (Or.inl h)
      have hmod : b.i % 65536 = b.i := Nat.mod_eq_of_lt (h16 b (List.mem_cons_self b bs))
      have hval : tget n (tset n cb c0 (b.i % 65536)) c0 = b.i := by
        rw [tget_tset_self n cb c0 (b.i % 65536) hc0n, hmod]
      rcases List.mem_cons.mp hb2 with h | h
      · subst h
        simp only
        rw [restoreBurgsGo_tget_preserved projection find W H scale n bs _ c0
          (by rw [hval]; exact hbne), hval]
      · exact ih _ h16t b2 h hi hrem

lemma restoreBurgsGo_values (bs : List IBurg) (cb : Nat → Nat) (c : Nat) :
    tget n (restoreBurgsGo projection find W H scale n bs cb).2 c = tget n cb c ∨
    ∃ b2 ∈ (restoreBurgsGo projection find W H scale n bs cb).1,
      b2.i ≠ 0 ∧ b2.removed = false ∧
      tget n (restoreBurgsGo projection find W H scale n bs cb).2 c = b2.i % 65536 := by
  induction bs generalizing cb with
  | nil => exact Or.inl rfl
  | cons b bs ih =>
    rcases migrateBurg_outcome projection find W H scale n cb b with
      ⟨hb, heq⟩ | ⟨hb, heq⟩ | ⟨c0, hb, hf, hfree, heq⟩
    · simp only [restoreBurgsGo_cons, heq]
      rcases ih cb with h | ⟨b2, hmem, hi, hrem, hval⟩
      · exact Or.inl h
      · exact Or.inr ⟨b2, List.mem_cons_of_mem _ hmem, hi, hrem, hval⟩
    · simp only [restoreBurgsGo_cons, heq]
      rcases ih cb with h | ⟨b2, hmem, hi, hrem, hval⟩
      · exact Or.inl h
      · exact Or.inr ⟨b2, List.mem_cons_of_mem _ hmem, hi, hrem, hval⟩
    · simp only [restoreBurgsGo_cons, heq]
      have hbne : b.i ≠ 0 := fun h => hb (Or.inl h)
      rcases ih (tset n cb c0 (b.i % 65536)) with h | ⟨b2, hmem, hi, hrem, hval⟩
      · by_cases hcc : c = c0
        · subst hcc
          by_cases hn : c < n
          · refine Or.inr ⟨_, List.mem_cons_self _ _, hbne,
              Bool.eq_false_iff.mpr (fun hbr => hb (Or.inr hbr)), ?_⟩
            rw [h, tget_tset_self n cb c (b.i % 65536) hn]
          · left
            rw [h, tget_tset_out n cb c (b.i % 65536) c hn]
        · left
          rw [h, tget_tset_ne n cb c0 (b.i % 65536) c hcc]
      · exact Or.inr ⟨b2, List.mem_cons_of_mem _ hmem, hi, hrem, hval⟩

lemma restoreBurgsGo_pairwise (bs : List IBurg) (cb : Nat → Nat)
    (h16 : ∀ b ∈ bs, b.i < 65536)
    (hfind : ∀ x y c, find x y = some c → c < n) :
    (restoreBurgsGo projection find W H scale n bs cb).1.Pairwise
      (fun a b2 => a.i ≠ 0 → a.removed = false → b2.i ≠ 0 → b2.removed = false →
        a.cell ≠ b2.cell) := by
  induction bs generalizing cb with
  | nil => exact List.Pairwise.nil
  | cons b bs ih =>
    have h16t : ∀ b3 ∈ bs, b3.i < 65536 := fun b3 h3 => h16 b3 (List.mem_cons_of_mem b h3)
    rcases migrateBurg_outcome projection find W H scale n cb b with
      ⟨hb, heq⟩ | ⟨hb, heq⟩ | ⟨c0, hb, hf, hfree, heq⟩
    · simp only [restoreBurgsGo_cons, heq]
      rw [List.pairwise_cons]
      constructor
      · intro b2 hb2 hi hrem _ _
        rcases hb with h0 | h0
        · exact absurd h0 hi
        · rw [hrem] at h0; cases h0
      · exact ih cb h16t
    · simp only [restoreBurgsGo_cons, heq]
      rw [List.pairwise_cons]
      constructor
      · intro b2 hb2 hi hrem _ _
        simp at hrem
      · exact ih cb h16t
    · simp only [restoreBurgsGo_cons, heq]
      rw [List.pairwise_cons]
      have hc0n : c0 < n := hfind _ _ _ hf
      have hbne : b.i ≠ 0 := fun h => hb (Or.inl h)
      have hmod : b.i % 65536 = b.i := Nat.mod_eq_of_lt (h16 b (List.mem_cons_self b bs))
      have hval : tget n (tset n cb c0 (b.i % 65536)) c0 ≠ 0 := by
        rw [tget_tset_self n cb c0 (b.i % 65536) hc0n, hmod]
        exact hbne
      constructor
      · intro b2 hb2 _ _ hi2 hrem2
        have := restoreBurgsGo_noplace projection find W H scale n bs _ c0 hval b2 hb2 hi2 hrem2
        simpa using this.symm
      · exact ih _ h16t

end BurgLemmas

lemma countP_le_one_of_pairwise {α : Type} (p : α → Bool) (l : List α)
    (h : l.Pairwise (fun a b => ¬ (p a = true ∧ p b = true))) : l.countP p ≤ 1 := by
  induction l with
  | nil => simp
  | cons a l ih =>
    rw [List.countP_cons]
    rcases List.pairwise_cons.mp h with ⟨hhead, htail⟩
    by_cases hpa : p a = true
    · have hz : l.countP p = 0 := by
        rw [List.countP_eq_zero]
        intro b hb hpb
        exact hhead b hb ⟨hpa, hpb⟩
      simp [hpa, hz]
    · simp only [hpa, if_false]
      simpa using ih htail

/-! ### Claim C3: first-writer-wins and burg-per-cell uniqueness -/

/-- C3: burgs are processed in parent index order; a burg whose projected point
snaps to a cell already claimed by an earlier burg is returned removed; a
placed burg's cell keeps that burg's index in the final `pack.cells.burg`
array (never overwritten); and every cell is referenced by at most one
non-removed burg (index 0 is the reserved placeholder slot). -/
theorem c3_burg_first_writer_wins (projection : ℚ → ℚ → ℚ × ℚ)
    (find : ℚ → ℚ → Option Nat) (W H scale : ℚ) (n : Nat)
    (burgs : List IBurg) (cellsBurg : Nat → Nat)
    (h16 : ∀ b ∈ burgs, b.i < 65536)
    (hfind : ∀ x y c, find x y = some c → c < n) :
    (∀ k, (hk : k < burgs.length) → ∀ c,
      burgs[k].i ≠ 0 → burgs[k].removed = false →
      isInMap W H (rn (projection burgs[k].x burgs[k].y).1)
        (rn (projection burgs[k].x burgs[k].y).2) →
      find (rn (projection burgs[k].x burgs[k].y).1)
        (rn (projection burgs[k].x burgs[k].y).2) = some c →
      (∃ j, j < k ∧
        ((restoreBurgs projection find W H scale n burgs cellsBurg).1.getD j default).i ≠ 0 ∧
        ((restoreBurgs projection find W H scale n burgs cellsBurg).1.getD j
          default).removed = false ∧
        ((restoreBurgs projection find W H scale n burgs cellsBurg).1.getD j
          default).cell = c) →
      ((restoreBurgs projection find W H scale n burgs cellsBurg).1.getD k
        default).removed = true) ∧
    (∀ b2 ∈ (restoreBurgs projection find W H scale n burgs cellsBurg).1,
      b2.i ≠ 0 → b2.removed = false →
      tget n (restoreBurgs projection find W H scale n burgs cellsBurg).2 b2.cell = b2.i) ∧
    (∀ c, ((restoreBurgs projection find W H scale n burgs cellsBurg).1.countP
        (fun b2 => decide (b2.i ≠ 0 ∧ b2.removed = false ∧ b2.cell = c))) ≤ 1) := by
  refine ⟨?_, ?_, ?_⟩
  · intro k hk c hi hrem hin hf hex
    obtain ⟨j, hjk, hji, hjrem, hjcell⟩ := hex
    have hsplit := (List.take_append_drop k burgs).symm
    have hlentake : (burgs.take k).length = k := by
      rw [List.length_take]
      omega
    have hgo : restoreBurgsGo projection find W H scale n burgs cellsBurg =
        ((restoreBurgsGo projection find W H scale n (burgs.take k) cellsBurg).1 ++
           (restoreBurgsGo projection find W H scale n (burgs.drop k)
             (restoreBurgsGo projection find W H scale n (burgs.take k) cellsBurg).2).1,
         (restoreBurgsGo projection find W H scale n (burgs.drop k)
           (restoreBurgsGo projection find W H scale n (burgs.take k) cellsBurg).2).2) := by
      conv_lhs => rw [hsplit]
      exact restoreBurgsGo_append2 projection find W H scale n _ _ _
    have hA1len : (restoreBurgsGo projection find W H scale n
        (burgs.take k) cellsBurg).1.length = k := by
      rw [restoreBurgsGo_length]
      exact hlentake
    have hj1 : (restoreBurgs projection find W H scale n burgs cellsBurg).1.getD j default =
        (restoreBurgsGo projection find W H scale n (burgs.take k) cellsBurg).1.getD
          j default := by
      rw [restoreBurgs, hgo]
      exact getD_eq_of_append _ _ j default (by rw [hA1len]; exact hjk)
    rw [hj1] at hji hjrem hjcell
    have hjmem : (restoreBurgsGo projection find W H scale n
          (burgs.take k) cellsBurg).1.getD j default ∈
        (restoreBurgsGo projection find W H scale n (burgs.take k) cellsBurg).1 := by
      rw [List.getD_eq_getElem _ default (by rw [hA1len]; exact hjk)]
      exact List.getElem_mem _
    have h16t : ∀ b ∈ burgs.take k, b.i < 65536 :=
      fun b hb => h16 b (List.take_subset k burgs hb)
    have hocc : tget n (restoreBurgsGo projection find W H scale n
        (burgs.take k) cellsBurg).2 c ≠ 0 := by
      have hfv := restoreBurgsGo_final_value projection find W H scale n (burgs.take k)
        cellsBurg h16t hfind _ hjmem hji hjrem
      rw [hjcell] at hfv
      rw [hfv]
      exact hji
    have hdk : burgs.drop k = burgs[k] :: burgs.drop (k + 1) := List.drop_eq_getElem_cons hk
    have hb : ¬ (burgs[k].i = 0 ∨ burgs[k].removed = true) := by
      rintro (h0 | h0)
      · exact hi h0
      · rw [hrem] at h0
        cases h0
    have hkth : (restoreBurgs projection find W H scale n burgs cellsBurg).1.getD k default =
        ({burgs[k] with
            population := burgs[k].population * scale
            removed := true
            lock := false}) := by
      rw [restoreBurgs, hgo]
      show ((restoreBurgsGo projection find W H scale n (burgs.take k) cellsBurg).1 ++
        (restoreBurgsGo projection find W H scale n (burgs.drop k)
          (restoreBurgsGo projection find W H scale n (burgs.take k) cellsBurg).2).1).getD
            k default = _
      rw [getD_append_at _ _ _ _ hA1len, hdk, restoreBurgsGo_cons,
        migrateBurg_occupied projection find W H scale n _ (burgs[k]) c hb hin hf hocc]
      rfl
    rw [hkth]
  · exact restoreBurgsGo_final_value projection find W H scale n burgs cellsBurg h16 hfind
  · intro c
    have hpw := restoreBurgsGo_pairwise projection find W H scale n burgs cellsBurg h16 hfind
    apply countP_le_one_of_pairwise
    refine List.Pairwise.imp ?_ hpw
    intro a b2 hR hand
    obtain ⟨hpa, hpb⟩ := hand
    rw [decide_eq_true_eq] at hpa hpb
    obtain ⟨hia, hrema, hcella⟩ := hpa
    obtain ⟨hib, hremb, hcellb⟩ := hpb
    exact hR hia hrema hib hremb (by rw [hcella, hcellb])

/-! ### Claim C4: out-of-bounds burgs are removed -/

/-- C4: a non-removed parent burg (index ≠ 0) whose projected coordinate,
rounded to 2 decimals, lies outside the new map bounds is returned with
`removed = true` and its lock cleared, and its index is written to no cell of
the new `pack.cells.burg` array. -/
theorem c4_burg_out_of_bounds (projection : ℚ → ℚ → ℚ × ℚ)
    (find : ℚ → ℚ → Option Nat) (W H scale : ℚ) (n : Nat)
    (burgs : List IBurg) (cellsBurg : Nat → Nat)
    (h16 : ∀ b ∈ burgs, b.i < 65536)
    (hidx : ∀ j, (hj : j < burgs.length) → burgs[j].i = j)
    (hzero : ∀ c, tget n cellsBurg c = 0)
    (k : Nat) (hk : k < burgs.length)
    (hi : burgs[k].i ≠ 0) (hrem : burgs[k].removed = false)
    (hoob : ¬ isInMap W H (rn (projection burgs[k].x burgs[k].y).1)
      (rn (projection burgs[k].x burgs[k].y).2)) :
    ((restoreBurgs projection find W H scale n burgs cellsBurg).1.getD k
      default).removed = true ∧
    ((restoreBurgs projection find W H scale n burgs cellsBurg).1.getD k
      default).lock = false ∧
    ∀ c, tget n (restoreBurgs projection find W H scale n burgs cellsBurg).2 c ≠
      burgs[k].i := by
  have hsplit := (List.take_append_drop k burgs).symm
  have hlentake : (burgs.take k).length = k := by
    rw [List.length_take]
    omega
  have hgo : restoreBurgsGo projection find W H scale n burgs cellsBurg =
      ((restoreBurgsGo projection find W H scale n (burgs.take k) cellsBurg).1 ++
         (restoreBurgsGo projection find W H scale n (burgs.drop k)
           (restoreBurgsGo projection find W H scale n (burgs.take k) cellsBurg).2).1,
       (restoreBurgsGo projection find W H scale n (burgs.drop k)
         (restoreBurgsGo projection find W H scale n (burgs.take k) cellsBurg).2).2) := by
    conv_lhs => rw [hsplit]
    exact restoreBurgsGo_append2 projection find W H scale n _ _ _
  have hA1len : (restoreBurgsGo projection find W H scale n
      (burgs.take k) cellsBurg).1.length = k := by
    rw [restoreBurgsGo_length]
    exact hlentake
  have hdk : burgs.drop k = burgs[k] :: burgs.drop (k + 1) := List.drop_eq_getElem_cons hk
  have hb : ¬ (burgs[k].i = 0 ∨ burgs[k].removed = true) := by
    rintro (h0 | h0)
    · exact hi h0
    · rw [hrem] at h0
      cases h0
  have hkth : (restoreBurgs projection find W H scale n burgs cellsBurg).1.getD k default =
      ({burgs[k] with
          population := burgs[k].population * scale
          removed := true
          lock := false}) := by
    rw [restoreBurgs, hgo]
    show ((restoreBurgsGo projection find W H scale n (burgs.take k) cellsBurg).1 ++
      (restoreBurgsGo projection find W H scale n (burgs.drop k)
        (restoreBurgsGo projection find W H scale n (burgs.take k) cellsBurg).2).1).getD
          k default = _
    rw [getD_append_at _ _ _ _ hA1len, hdk, restoreBurgsGo_cons,
      migrateBurg_oob projection find W H scale n _ (burgs[k]) hb hoob]
    rfl
  refine ⟨by rw [hkth], by rw [hkth], ?_⟩
  intro c
  rcases restoreBurgsGo_values projection find W H scale n burgs cellsBurg c with
    h | ⟨b2, hmem, hi2, hrem2, hval⟩
  · rw [restoreBurgs, h, hzero c]
    exact fun h0 => hi h0.symm
  · rw [restoreBurgs, hval]
    obtain ⟨j, hjlen, hjeq⟩ := List.getElem_of_mem hmem
    have hjlen2 : j < burgs.length := by
      rw [← restoreBurgsGo_length projection find W H scale n burgs cellsBurg]
      exact hjlen
    have hji : b2.i = j := by
      have hgd := restoreBurgsGo_getD_i projection find W H scale n burgs cellsBurg j
      rw [List.getD_eq_getElem _ default hjlen, List.getD_eq_getElem _ default hjlen2,
        hjeq, hidx j hjlen2] at hgd
      exact hgd
    have hj16 : j < 65536 := by
      have := h16 (burgs[j]) (List.getElem_mem hjlen2)
      rwa [hidx j hjlen2] at this
    have hjk : j ≠ k := by
      intro h0
      subst h0
      have : b2.removed = true := by
        have h2 := hkth
        rw [restoreBurgs] at h2
        rw [List.getD_eq_getElem _ default (by
          rw [restoreBurgsGo_length]; exact hjlen2), hjeq] at h2
        rw [h2]
      rw [hrem2] at this
      cases this
    rw [hji, Nat.mod_eq_of_lt hj16, hidx k hk]
    exact hjk

/-- Witness for C3 at a concrete input: two burgs snap to the same land cell 3;
the first is placed, the second is removed, and every cell is referenced by at
most one surviving burg. -/
theorem c3_burg_first_writer_wins_witness :
    ((restoreBurgs (fun x y : ℚ => (x, y)) (fun _ _ => some 3) 20 20 1 5
        [⟨1, 0, 5, 5, 1, false, false⟩, ⟨2, 0, 5, 5, 1, false, false⟩]
        (fun _ => 0)).1.getD 1 default).removed = true ∧
    ∀ c, ((restoreBurgs (fun x y : ℚ => (x, y)) (fun _ _ => some 3) 20 20 1 5
        [⟨1, 0, 5, 5, 1, false, false⟩, ⟨2, 0, 5, 5, 1, false, false⟩]
        (fun _ => 0)).1.countP
          (fun b2 => decide (b2.i ≠ 0 ∧ b2.removed = false ∧ b2.cell = c))) ≤ 1 := by
  have h := c3_burg_first_writer_wins (fun x y : ℚ => (x, y)) (fun _ _ => some 3) 20 20 1 5
    [⟨1, 0, 5, 5, 1, false, false⟩, ⟨2, 0, 5, 5, 1, false, false⟩] (fun _ => 0)
    (by decide)
    (by intro x y c hc; cases hc; omega)
  have hplaced := migrateBurg_placed (fun x y : ℚ => (x, y)) (fun _ _ => some 3) 20 20 1 5
    (fun _ => 0) ⟨1, 0, 5, 5, 1, false, false⟩ 3 (by decide)
    (by norm_num [isInMap, rn, round_eq]) rfl (by decide)
  have hout0 : (restoreBurgs (fun x y : ℚ => (x, y)) (fun _ _ => some 3) 20 20 1 5
      [⟨1, 0, 5, 5, 1, false, false⟩, ⟨2, 0, 5, 5, 1, false, false⟩]
      (fun _ => 0)).1.getD 0 default =
      ({(⟨1, 0, 5, 5, 1, false, false⟩ : IBurg) with
          population := (1 : ℚ) * 1
          x := rn ((5 : ℚ))
          y := rn ((5 : ℚ))
          cell := 3}) := by
    show (migrateBurg (fun x y : ℚ => (x, y)) (fun _ _ => some 3) 20 20 1 5 (fun _ => 0)
      ⟨1, 0, 5, 5, 1, false, false⟩).1 = _
    rw [hplaced]
  refine ⟨?_, h.2.2⟩
  apply h.1 1 (by decide) 3 (by decide) (by decide)
    (by norm_num [isInMap, rn, round_eq]) rfl
  refine ⟨0, by decide, ?_, ?_, ?_⟩
  · rw [hout0]
    decide
  · rw [hout0]
  · rw [hout0]

/-- Witness for C4 at a concrete input: burg 1 projects to (50, 50), outside
the 20 by 20 map, so it is removed, unlocked, and written nowhere. -/
theorem c4_burg_out_of_bounds_witness :
    ((restoreBurgs (fun x y : ℚ => (x, y)) (fun _ _ => some 3) 20 20 1 5
        [⟨0, 0, 0, 0, 0, false, false⟩, ⟨1, 0, 50, 50, 1, false, false⟩]
        (fun _ => 0)).1.getD 1 default).removed = true ∧
    ((restoreBurgs (fun x y : ℚ => (x, y)) (fun _ _ => some 3) 20 20 1 5
        [⟨0, 0, 0, 0, 0, false, false⟩, ⟨1, 0, 50, 50, 1, false, false⟩]
        (fun _ => 0)).1.getD 1 default).lock = false ∧
    ∀ c, tget 5 (restoreBurgs (fun x y : ℚ => (x, y)) (fun _ _ => some 3) 20 20 1 5
        [⟨0, 0, 0, 0, 0, false, false⟩, ⟨1, 0, 50, 50, 1, false, false⟩]
        (fun _ => 0)).2 c ≠
      ([(⟨0, 0, 0, 0, 0, false, false⟩ : IBurg), ⟨1, 0, 50, 50, 1, false, false⟩])[1].i :=
  c4_burg_out_of_bounds (fun x y : ℚ => (x, y)) (fun _ _ => some 3) 20 20 1 5
    [⟨0, 0, 0, 0, 0, false, false⟩, ⟨1, 0, 50, 50, 1, false, false⟩] (fun _ => 0)
    (by decide)
    (by decide)
    (fun c => by simp [tget])
    1 (by decide) (by decide) (by decide)
    (by norm_num [isInMap, rn, round_eq])

/-! ### Lemmas about `smoothHeightmap` (claims C5, C10) -/

lemma smoothStep_ne (c : Nat → List Nat) (n k : Nat) (h : Nat → Nat) (j : Nat)
    (hj : j ≠ k) : smoothStep c n k h j = h j := by
  simp [smoothStep, tset, hj]

lemma smoothStep_self (c : Nat → List Nat) (n k : Nat) (h : Nat → Nat) (hk : k < n) :
    smoothStep c n k h k =
      toUint8 (if h k < 20 then min (meanHeight c n h k) 19
        else max (meanHeight c n h k) 20) := by
  simp [smoothStep, tset, hk]

lemma smoothGo_not_mem (c : Nat → List Nat) (n : Nat) (ks : List Nat) (h : Nat → Nat)
    (j : Nat) (hj : j ∉ ks) : smoothGo c n ks h j = h j := by
  induction ks generalizing h with
  | nil => rfl
  | cons k ks ih =>
    rw [smoothGo, ih _ (fun hm => hj (List.mem_cons_of_mem k hm)),
      smoothStep_ne c n k h j (fun he => hj (he ▸ List.mem_cons_self k ks))]

lemma smoothGo_append (c : Nat → List Nat) (n : Nat) (ks1 ks2 : List Nat) (h : Nat → Nat) :
    smoothGo c n (ks1 ++ ks2) h = smoothGo c n ks2 (smoothGo c n ks1 h) := by
  induction ks1 generalizing h with
  | nil => rfl
  | cons k ks ih => rw [List.cons_append, smoothGo, smoothGo, ih]

lemma range_decomp (k n : Nat) (hk : k ≤ n) :
    List.range n = List.range k ++ List.range' k (n - k) := by
  rw [List.range_eq_range' n, List.range_eq_range' k]
  have h2 := List.range'_append 0 k (n - k) 1
  simp only [Nat.one_mul, Nat.zero_add] at h2
  rw [h2]
  congr 1
  omega

lemma smoothHeightmap_decomp (c : Nat → List Nat) (n : Nat) (h : Nat → Nat) (k : Nat)
    (hk : k ≤ n) :
    smoothHeightmap c n h =
      smoothGo c n (List.range' k (n - k)) (smoothGo c n (List.range k) h) := by
  rw [smoothHeightmap, range_decomp k n hk, smoothGo_append]

lemma smoothHeightmap_prefix_agree (c : Nat → List Nat) (n : Nat) (h : Nat → Nat)
    (k j : Nat) (hk : k ≤ n) (hj : j < k) :
    smoothHeightmap c n h j = smoothGo c n (List.range k) h j := by
  rw [smoothHeightmap_decomp c n h k hk]
  exact smoothGo_not_mem c n _ _ j (by
    rw [List.mem_range'_1]
    omega)

lemma smoothGo_range_orig (c : Nat → List Nat) (n : Nat) (h : Nat → Nat) (k j : Nat)
    (hj : k ≤ j) : smoothGo c n (List.range k) h j = h j :=
  smoothGo_not_mem c n _ _ j (by rw [List.mem_range]; omega)

lemma smoothHeightmap_at (c : Nat → List Nat) (n : Nat) (h : Nat → Nat) (k : Nat)
    (hk : k < n) :
    smoothHeightmap c n h k =
      toUint8 (if smoothGo c n (List.range k) h k < 20
        then min (meanHeight c n (smoothGo c n (List.range k) h) k) 19
        else max (meanHeight c n (smoothGo c n (List.range k) h) k) 20) := by
  rw [smoothHeightmap_decomp c n h k (Nat.le_of_lt hk)]
  have hnk : n - k = (n - (k + 1)) + 1 := by omega
  rw [hnk]
  show smoothGo c n (k :: List.range' (k + 1) (n - (k + 1)))
    (smoothGo c n (List.range k) h) k = _
  rw [smoothGo, smoothGo_not_mem c n _ _ k (by rw [List.mem_range'_1]; omega),
    smoothStep_self c n k _ hk]

lemma toUint8_lt_256 (q : ℚ) : toUint8 q < 256 := by
  rw [toUint8]
  have h1 : jsTrunc q % 256 < 256 := Int.emod_lt_of_pos _ (by norm_num)
  omega

lemma toUint8_lt_20 (q : ℚ) (h0 : 0 ≤ q) (h19 : q ≤ 19) : toUint8 q < 20 := by
  rw [toUint8, jsTrunc, if_pos h0]
  have hf0 : (0 : ℤ) ≤ ⌊q⌋ := Int.le_floor.mpr (by exact_mod_cast h0)
  have hf19 : ⌊q⌋ ≤ 19 := by
    calc ⌊q⌋ ≤ ⌊(19 : ℚ)⌋ := Int.floor_le_floor h19
    _ = 19 := by norm_num
  rw [Int.emod_eq_of_lt hf0 (by omega)]
  omega

lemma toUint8_ge_20 (q : ℚ) (h20 : 20 ≤ q) (h256 : q < 256) : 20 ≤ toUint8 q := by
  rw [toUint8, jsTrunc, if_pos (le_trans (by norm_num) h20)]
  have hf20 : (20 : ℤ) ≤ ⌊q⌋ := by
    calc (20 : ℤ) = ⌊(20 : ℚ)⌋ := by norm_num
    _ ≤ ⌊q⌋ := Int.floor_le_floor h20
  have hf256 : ⌊q⌋ < 256 := by
    have := Int.floor_le q
    have h2 : (⌊q⌋ : ℚ) < 256 := lt_of_le_of_lt this h256
    exact_mod_cast h2
  rw [Int.emod_eq_of_lt (by omega) (by omega)]
  omega

lemma meanHeight_nonneg (c : Nat → List Nat) (n : Nat) (h : Nat → Nat) (k : Nat) :
    0 ≤ meanHeight c n h k := by
  rw [meanHeight]
  apply div_nonneg
  · apply List.sum_nonneg
    intro x hx
    rcases List.mem_cons.mp hx with h1 | h1
    · rw [h1]; positivity
    · obtain ⟨j, _, hj2⟩ := List.mem_filterMap.mp h1
      split at hj2
      · cases hj2; positivity
      · cases hj2
  · positivity

lemma meanHeight_lt_256 (c : Nat → List Nat) (n : Nat) (h : Nat → Nat) (k : Nat)
    (hall : ∀ j, h j < 256) : meanHeight c n h k < 256 := by
  rw [meanHeight]
  set heights : List ℚ :=
    ((h k : Nat) : ℚ) :: (c k).filterMap (fun j => if j < n then some ((h j : Nat) : ℚ) else none)
    with hheights
  have hlen : 0 < (heights.length : ℚ) := by
    rw [hheights]
    simp only [List.length_cons]
    positivity
  rw [div_lt_iff₀ hlen]
  have hb : ∀ x ∈ heights, x ≤ 255 := by
    intro x hx
    rw [hheights] at hx
    rcases List.mem_cons.mp hx with h1 | h1
    · rw [h1]
      have h2 : h k ≤ 255 := Nat.lt_succ_iff.mp (hall k)
      exact_mod_cast h2
    · obtain ⟨j, _, hj2⟩ := List.mem_filterMap.mp h1
      split at hj2
      · cases hj2
        have h2 : h j ≤ 255 := Nat.lt_succ_iff.mp (hall j)
        exact_mod_cast h2
      · cases hj2
  calc heights.sum ≤ heights.length • (255 : ℚ) := List.sum_le_card_nsmul heights 255 hb
    _ = (heights.length : ℚ) * 255 := by rw [nsmul_eq_mul]
    _ < 256 * (heights.length : ℚ) := by nlinarith

/-- Each smoothing pass keeps every elevation below 256 (no `Uint8` wraparound)
and preserves the original land/water classification of every cell. -/
lemma smoothGo_classification (c : Nat → List Nat) (n : Nat) (h0 : Nat → Nat)
    (ks : List Nat) (h : Nat → Nat)
    (hinv : ∀ j, h j < 256 ∧ (h j < 20 ↔ h0 j < 20)) :
    ∀ j, smoothGo c n ks h j < 256 ∧ (smoothGo c n ks h j < 20 ↔ h0 j < 20) := by
  induction ks generalizing h with
  | nil => exact hinv
  | cons k ks ih =>
    rw [smoothGo]
    apply ih
    intro j
    by_cases hc : j = k ∧ k < n
    · obtain ⟨hjk, hkn⟩ := hc
      subst hjk
      rw [smoothStep_self c n j h hkn]
      have hm0 : 0 ≤ meanHeight c n h j := meanHeight_nonneg c n h j
      have hm256 : meanHeight c n h j < 256 :=
        meanHeight_lt_256 c n h j (fun j2 => (hinv j2).1)
      by_cases hw : h j < 20
      · rw [if_pos hw]
        refine ⟨toUint8_lt_256 _, ?_⟩
        have hlt20 : toUint8 (min (meanHeight c n h j) 19) < 20 :=
          toUint8_lt_20 _ (le_min hm0 (by norm_num)) (min_le_right _ _)
        constructor
        · intro _
          exact (hinv j).2.mp hw
        · intro _
          exact hlt20
      · rw [if_neg hw]
        have hge : 20 ≤ toUint8 (max (meanHeight c n h j) 20) :=
          toUint8_ge_20 _ (le_max_right _ _) (max_lt hm256 (by norm_num))
        refine ⟨toUint8_lt_256 _, ?_⟩
        constructor
        · intro hlt
          omega
        · intro hlt
          exact absurd ((hinv j).2.mpr hlt) hw
    · have hst : smoothStep c n k h j = h j := by
        rw [smoothStep]
        simp only [tset]
        rw [if_neg hc]
      rw [hst]
      exact hinv j

/-! ### Claim C5: smoothing is clamped and preserves classification -/

/-- C5 counterexample: the post-smoothing elevation is *not* the clamped mean
of the cell's and its neighbors' original elevations.  With cells 0 and 1
mutual neighbors at elevations 20 and 24, cell 1 ends at 23 (the mean uses
cell 0's already-smoothed value 22), while the claimed value is
max((24 + 20) / 2, 20) = 22. -/
theorem c5_smoothing_counterexample :
    ¬ (((smoothHeightmap (fun j => if j = 0 then [1] else [0]) 2
        (fun j => if j = 0 then 20 else 24) 1 : Nat) : ℚ) =
      (if ((fun j : Nat => if j = 0 then 20 else 24) 1) < 20
       then min (meanHeight (fun j => if j = 0 then [1] else [0]) 2
         (fun j => if j = 0 then 20 else 24) 1) 19
       else max (meanHeight (fun j => if j = 0 then [1] else [0]) 2
         (fun j => if j = 0 then 20 else 24) 1) 20)) := by
  have hm0 : meanHeight (fun j => if j = 0 then [1] else [0]) 2
      (fun j => if j = 0 then 20 else 24) 0 = 22 := by
    rw [meanHeight]
    norm_num [List.filterMap]
  have hstep0 : smoothStep (fun j => if j = 0 then [1] else [0]) 2 0
      (fun j => if j = 0 then 20 else 24) 0 = 22 := by
    rw [smoothStep_self _ _ _ _ (by norm_num), hm0]
    norm_num [toUint8, jsTrunc]
    decide
  have hstep1 : smoothStep (fun j => if j = 0 then [1] else [0]) 2 0
      (fun j => if j = 0 then 20 else 24) 1 = 24 := by
    rw [smoothStep_ne _ _ _ _ _ (by norm_num)]
    decide
  have hm1 : meanHeight (fun j => if j = 0 then [1] else [0]) 2
      (smoothStep (fun j => if j = 0 then [1] else [0]) 2 0
        (fun j => if j = 0 then 20 else 24)) 1 = 23 := by
    rw [meanHeight]
    simp only [List.filterMap, hstep0, hstep1]
    norm_num [hstep0, hstep1]
  have hlhs : smoothHeightmap (fun j => if j = 0 then [1] else [0]) 2
      (fun j => if j = 0 then 20 else 24) 1 = 23 := by
    rw [smoothHeightmap_at _ _ _ _ (by norm_num)]
    have hrg : List.range 1 = [0] := rfl
    rw [hrg]
    have hgo : smoothGo (fun j => if j = 0 then [1] else [0]) 2 [0]
        (fun j => if j = 0 then 20 else 24) =
        smoothStep (fun j => if j = 0 then [1] else [0]) 2 0
          (fun j => if j = 0 then 20 else 24) := rfl
    rw [hgo, hstep1, hm1]
    norm_num [toUint8, jsTrunc]
    decide
  have hrhs : meanHeight (fun j => if j = 0 then [1] else [0]) 2
      (fun j => if j = 0 then 20 else 24) 1 = 22 := by
    rw [meanHeight]
    norm_num [List.filterMap]
  rw [hlhs, hrhs]
  norm_num

/-- C5 (amended): with smoothing enabled, each cell's post-smoothing elevation
is the integer truncation of the mean of the cell's and its neighbors'
*then-current* (partially smoothed) elevations, clamped to at most 19 for
water cells and at least 20 for land cells; smoothing never changes any
cell's land/water classification. -/
theorem c5_smoothing_clamped (c : Nat → List Nat) (n : Nat) (h : Nat → Nat)
    (hlt : ∀ j, h j < 256) (k : Nat) (hk : k < n) :
    smoothHeightmap c n h k =
      toUint8 (if smoothGo c n (List.range k) h k < 20
        then min (meanHeight c n (smoothGo c n (List.range k) h) k) 19
        else max (meanHeight c n (smoothGo c n (List.range k) h) k) 20) ∧
    (smoothHeightmap c n h k < 20 ↔ h k < 20) := by
  refine ⟨smoothHeightmap_at c n h k hk, ?_⟩
  rw [smoothHeightmap]
  exact (smoothGo_classification c n h (List.range n) h (fun j => ⟨hlt j, Iff.rfl⟩) k).2

/-- Witness for C5 at a concrete input (Scenario D shape): a land cell at
elevation 21 whose only neighbor is water at elevation 10 stays land. -/
theorem c5_smoothing_clamped_witness :
    (smoothHeightmap (fun j => if j = 0 then [1] else [0]) 2
        (fun j => if j = 0 then 21 else 10) 0 =
      toUint8 (if smoothGo (fun j => if j = 0 then [1] else [0]) 2 (List.range 0)
          (fun j => if j = 0 then 21 else 10) 0 < 20
        then min (meanHeight (fun j => if j = 0 then [1] else [0]) 2
          (smoothGo (fun j => if j = 0 then [1] else [0]) 2 (List.range 0)
            (fun j => if j = 0 then 21 else 10)) 0) 19
        else max (meanHeight (fun j => if j = 0 then [1] else [0]) 2
          (smoothGo (fun j => if j = 0 then [1] else [0]) 2 (List.range 0)
            (fun j => if j = 0 then 21 else 10)) 0) 20)) ∧
    (smoothHeightmap (fun j => if j = 0 then [1] else [0]) 2
        (fun j => if j = 0 then 21 else 10) 0 < 20 ↔
      (fun j : Nat => if j = 0 then 21 else 10) 0 < 20) :=
  c5_smoothing_clamped (fun j => if j = 0 then [1] else [0]) 2
    (fun j => if j = 0 then 21 else 10)
    (fun j => by dsimp only; split <;> norm_num) 0 (by norm_num)

/-! ### Claim C10: smoothing is an in-place sequential fold -/

/-- C10: the mean computed for cell `k` uses the already-smoothed (final)
elevations of neighbors with index below `k` and the original elevations of
neighbors with index at least `k`, so the result is the sequential in-place
fold — and it differs from a pointwise map over the original elevation field,
as the concrete instance in the second conjunct shows. -/
theorem c10_smoothing_in_place (c : Nat → List Nat) (n : Nat) (h : Nat → Nat) (k : Nat)
    (hk : k < n) :
    (smoothHeightmap c n h k =
      toUint8 (if h k < 20
        then min (meanHeight c n
          (fun j => if j < k then smoothHeightmap c n h j else h j) k) 19
        else max (meanHeight c n
          (fun j => if j < k then smoothHeightmap c n h j else h j) k) 20)) ∧
    smoothHeightmap (fun j => if j = 0 then [1] else [0]) 2
        (fun j => if j = 0 then 20 else 28) 1 ≠
      smoothPointwise (fun j => if j = 0 then [1] else [0]) 2
        (fun j => if j = 0 then 20 else 28) 1 := by
  constructor
  · have hfun : smoothGo c n (List.range k) h =
        (fun j => if j < k then smoothHeightmap c n h j else h j) := by
      funext j
      by_cases hj : j < k
      · rw [if_pos hj]
        exact (smoothHeightmap_prefix_agree c n h k j (le_of_lt hk) hj).symm
      · rw [if_neg hj]
        exact smoothGo_range_orig c n h k j (le_of_not_lt hj)
    have heq := smoothHeightmap_at c n h k hk
    rw [hfun] at heq
    simpa using heq
  · have hm0 : meanHeight (fun j => if j = 0 then [1] else [0]) 2
        (fun j => if j = 0 then 20 else 28) 0 = 24 := by
      rw [meanHeight]
      norm_num [List.filterMap]
    have hstep0 : smoothStep (fun j => if j = 0 then [1] else [0]) 2 0
        (fun j => if j = 0 then 20 else 28) 0 = 24 := by
      rw [smoothStep_self _ _ _ _ (by norm_num), hm0]
      norm_num [toUint8, jsTrunc]
      decide
    have hstep1 : smoothStep (fun j => if j = 0 then [1] else [0]) 2 0
        (fun j => if j = 0 then 20 else 28) 1 = 28 := by
      rw [smoothStep_ne _ _ _ _ _ (by norm_num)]
      decide
    have hm1 : meanHeight (fun j => if j = 0 then [1] else [0]) 2
        (smoothStep (fun j => if j = 0 then [1] else [0]) 2 0
          (fun j => if j = 0 then 20 else 28)) 1 = 26 := by
      rw [meanHeight]
      simp only [List.filterMap, hstep0, hstep1]
      norm_num [hstep0, hstep1]
    have hlhs : smoothHeightmap (fun j => if j = 0 then [1] else [0]) 2
        (fun j => if j = 0 then 20 else 28) 1 = 26 := by
      rw [smoothHeightmap_at _ _ _ _ (by norm_num)]
      have hrg : List.range 1 = [0] := rfl
      rw [hrg]
      have hgo : smoothGo (fun j => if j = 0 then [1] else [0]) 2 [0]
          (fun j => if j = 0 then 20 else 28) =
          smoothStep (fun j => if j = 0 then [1] else [0]) 2 0
            (fun j => if j = 0 then 20 else 28) := rfl
      rw [hgo, hstep1, hm1]
      norm_num [toUint8, jsTrunc]
      decide
    have hmr : meanHeight (fun j => if j = 0 then [1] else [0]) 2
        (fun j => if j = 0 then 20 else 28) 1 = 24 := by
      rw [meanHeight]
      norm_num [List.filterMap]
    have hrhs : smoothPointwise (fun j => if j = 0 then [1] else [0]) 2
        (fun j => if j = 0 then 20 else 28) 1 = 24 := by
      rw [smoothPointwise]
      norm_num [hmr, toUint8, jsTrunc]
      decide
    rw [hlhs, hrhs]
    norm_num

/-- Witness for C10 at a concrete input: cell 1's final elevation is computed
from cell 0's already-smoothed value. -/
theorem c10_smoothing_in_place_witness :
    (smoothHeightmap (fun j => if j = 0 then [1] else [0]) 2
        (fun j => if j = 0 then 20 else 28) 1 =
      toUint8 (if (fun j : Nat => if j = 0 then 20 else 28) 1 < 20
        then min (meanHeight (fun j => if j = 0 then [1] else [0]) 2
          (fun j => if j < 1 then smoothHeightmap (fun j2 => if j2 = 0 then [1] else [0]) 2
            (fun j2 => if j2 = 0 then 20 else 28) j
            else (fun j2 : Nat => if j2 = 0 then 20 else 28) j) 1) 19
        else max (meanHeight (fun j => if j = 0 then [1] else [0]) 2
          (fun j => if j < 1 then smoothHeightmap (fun j2 => if j2 = 0 then [1] else [0]) 2
            (fun j2 => if j2 = 0 then 20 else 28) j
            else (fun j2 : Nat => if j2 = 0 then 20 else 28) j) 1) 20)) ∧
    smoothHeightmap (fun j => if j = 0 then [1] else [0]) 2
        (fun j => if j = 0 then 20 else 28) 1 ≠
      smoothPointwise (fun j => if j = 0 then [1] else [0]) 2
        (fun j => if j = 0 then 20 else 28) 1 :=
  c10_smoothing_in_place (fun j => if j = 0 then [1] else [0]) 2
    (fun j => if j = 0 then 20 else 28) 1 (by norm_num)

end Submap
